import Mathlib

/-!
Shallow embedding of the two analysis scripts of the repository
`odoo-mig-analyzer` (files `oca-mig-analyzer.py` and `odoo-mig-analyzer.py`),
restricted to the parts the specification's claims are about: the catalogue
parser (`parse_csv`, `extract_repo_name`), the version range construction and
the per-repository / per-version walk (`analyze_repos`), together with the
module-listing helper (`log_repo_modules`) and the capture step
(`save_migrations`).

Python dictionaries are modelled as insertion-ordered association lists,
Python sets as lists used only through membership, and the filesystem /
network collaborators as a record of functions (`Env`).  Strings stay
strings; line numbers stay naturals.
-/

/-! ### Python container primitives -/

/-- `d[k]` for a `defaultdict(list)`: the list stored at key `k`, `[]` when
the key is absent. -/
def lookupList {α : Type} : List (String × List α) → String → List α
  | [], _ => []
  | (k, vs) :: rest, k' => if k' = k then vs else lookupList rest k'

/-- `d[k].append(v)` on a `defaultdict(list)`: append `v` to the list at key
`k`, creating the key at the end of the dictionary (Python insertion order)
when it is new. -/
def appendAt {α : Type} : List (String × List α) → String → α → List (String × List α)
  | [], k, v => [(k, [v])]
  | (k', vs) :: rest, k, v =>
    if k' = k then (k', vs ++ [v]) :: rest else (k', vs) :: appendAt rest k v

/-- `d[k] = v` on a plain `dict`: overwrite in place keeping the key's
position, or append the key at the end when new. -/
def updAt : List (String × Nat) → String → Nat → List (String × Nat)
  | [], k, v => [(k, v)]
  | (k', v') :: rest, k, v =>
    if k' = k then (k', v) :: rest else (k', v') :: updAt rest k v

/-- `s.add(m)` on a Python `set`, modelled membership-faithfully as a
duplicate-free list in first-insertion order. -/
def insertSet (s : List String) (m : String) : List String :=
  if s.contains m then s else s ++ [m]

/-! ### `extract_repo_name` and `parse_csv`

Both source files contain the identical functions
(`oca-mig-analyzer.py` lines 60-64 and 128-145,
`odoo-mig-analyzer.py` lines 70-74 and 143-160); they are embedded once. -/

/-! Python string primitives are modelled directly over the character list
(Lean's own `String.splitOn` / `trim` / `startsWith` are byte-loop
implementations that the kernel cannot evaluate, so they are unsuitable for
an executable embedding). -/

/-- `s.strip()` of Python: remove leading and trailing whitespace. -/
def pyStrip (s : String) : String :=
  let ws := fun c => c = ' ' || c = '\t' || c = '\n' || c = '\r' || c = '\x0b' || c = '\x0c'
  ⟨((s.data.dropWhile ws).reverse.dropWhile ws).reverse⟩

/-- `s.strip("/")`: remove every leading and trailing `/` character. -/
def stripSlashes (s : String) : String :=
  ⟨(((s.data.dropWhile (fun c => c = '/')).reverse.dropWhile (fun c => c = '/')).reverse)⟩

/-- `s.split(c)` of Python for a one-character separator (`"".split(c)`
yields `[""]`, consecutive separators yield empty segments). -/
def splitChar (c : Char) : List Char → List (List Char)
  | [] => [[]]
  | x :: xs =>
    let r := splitChar c xs
    if x = c then [] :: r
    else
      match r with
      | [] => [[x]]
      | seg :: segs => (x :: seg) :: segs

/-- Whether `pre` is an initial segment of `l`. -/
def isPrefixList : List Char → List Char → Bool
  | [], _ => true
  | _ :: _, [] => false
  | a :: pre, b :: l => a = b && isPrefixList pre l

/-- The characters after the first occurrence of `sep`, `none` when `sep`
does not occur. -/
def afterSubstr (sep : List Char) : List Char → Option (List Char)
  | [] => if sep.isEmpty then some [] else none
  | c :: rest =>
    if isPrefixList sep (c :: rest) then some ((c :: rest).drop sep.length)
    else afterSubstr sep rest

/-- Models `urllib.parse.urlparse(url).path`: the fragment (after the first
`#`) and the query (after the first `?`) are removed; when the remainder has
the shape `scheme://host/path` (the only shape the catalogue's repository
URLs take) the part from the first `/` after the host is returned, and a URL
without `://` is treated as a bare path. -/
def urlPath (url : String) : String :=
  let noFrag := url.data.takeWhile (fun c => !(c = '#'))
  let noQuery := noFrag.takeWhile (fun c => !(c = '?'))
  match afterSubstr ("://".data) noQuery with
  | none => ⟨noQuery⟩
  | some hostAndPath => ⟨hostAndPath.dropWhile (fun c => !(c = '/'))⟩

/-- `extract_repo_name(url)`: `urlparse(url).path.strip("/").split("/")[1]`,
`None` when the index does not exist (the bare `except`). -/
def extract_repo_name (url : String) : Option String :=
  ((splitChar '/' (stripSlashes (urlPath url)).data).map (fun seg => (⟨seg⟩ : String)))[1]?

/-- One retained catalogue row: `(module, url, line_num)` as appended by
`repos_data[repo].append((module, url, line_num))`. -/
abbrev ModEntry := String × String × Nat

/-- The row loop of `parse_csv`, carrying the `enumerate(reader, start=1)`
line counter and the two accumulators. -/
def parse_csv_go : List (List String) → Nat → List (String × List ModEntry) →
    List (Nat × List String) → List (String × List ModEntry) × List (Nat × List String)
  | [], _, repos_data, csv_errors => (repos_data, csv_errors)
  | row :: rest, line_num, repos_data, csv_errors =>
    if row.length < 2 then
      parse_csv_go rest (line_num + 1) repos_data (csv_errors ++ [(line_num, row)])
    else
      let module := pyStrip (row.getD 0 "")
      let url := pyStrip (row.getD 1 "")
      match extract_repo_name url with
      | none => parse_csv_go rest (line_num + 1) repos_data (csv_errors ++ [(line_num, row)])
      | some repo =>
        if repo = "" then
          parse_csv_go rest (line_num + 1) repos_data (csv_errors ++ [(line_num, row)])
        else
          parse_csv_go rest (line_num + 1) (appendAt repos_data repo (module, url, line_num))
            csv_errors

/-- `parse_csv`: rows with fewer than two fields, or whose URL yields no
repository identifier (`None` or the empty string, both falsy under
`if not repo:`), are recorded in `csv_errors` and skipped; every other row is
appended to `repos_data[repo]` in catalogue order, duplicates retained. -/
def parse_csv (rows : List (List String)) :
    List (String × List ModEntry) × List (Nat × List String) :=
  parse_csv_go rows 1 [] []

/-! ### The external collaborators -/

/-- The snapshot state the walk observes.  `repoExists url branch` is the
outcome of the `requests.head` probe issued while iterating `branch` (the
script issues exactly one probe per repository per branch iteration);
`isDir repo branch path` and `listDir repo branch path` are
`os.path.isdir` / `os.listdir` on `CLONES_DIR/repo/branch/<path>` as observed
during that iteration, i.e. after `ensure_repo_cloned` has (when not in
dry-run) materialized the tree; under dry-run they describe whatever local
snapshot state already exists. -/
structure Env where
  repoExists : String → String → Bool
  isDir : String → String → List String → Bool
  listDir : String → String → List String → List String

/-- The command-line values the walk consumes: the parsed major versions
`int(args.start.split('.')[0])` / `int(args.end.split('.')[0])` and the two
boolean switches (the `--compact` switch of the odoo variant only affects the
report renderers and is outside this model). -/
structure Args where
  start_v : Nat
  end_v : Nat
  save_migrations : Bool
  dry_run : Bool
deriving DecidableEq, Repr

/-- `branches = [f"{v}.0" for v in range(start_v, end_v + 1)]`; the Python
`range` is empty when `start_v > end_v`. -/
def mkBranches (start_v end_v : Nat) : List String :=
  (List.range' start_v (end_v + 1 - start_v)).map (fun v => toString v ++ ".0")

/-- `repo_url = f"https://github.com/OCA/{repo}.git"` (oca variant only). -/
def ocaRepoUrl (repo : String) : String :=
  "https://github.com/OCA/" ++ repo ++ ".git"

/-! ### `log_repo_modules` -/

/-- `name.startswith('.')` of Python: the first character is a dot. -/
def startsWithDot (name : String) : Bool :=
  match name.data with
  | [] => false
  | c :: _ => c = '.'

/-- `modulos_en_repo` of the oca variant (lines 88-91): the top-level
directory entries of the repository tree, hidden names excluded, empty when
the tree does not exist.  Python builds a set; only membership is consumed
downstream, which the list preserves. -/
def modulosEnRepoOca (env : Env) (repo branch : String) : List String :=
  if env.isDir repo branch [] then
    (env.listDir repo branch []).filter
      (fun name => env.isDir repo branch [name] && !startsWithDot name)
  else []

/-- The odoo variant's search roots (line 99): `repo_dir`,
`repo_dir/addons`, `repo_dir/odoo/addons`. -/
def searchDirsOdoo : List (List String) := [[], ["addons"], ["odoo", "addons"]]

/-- `modulos_en_repo` of the odoo variant (lines 99-107): the union over the
three search roots of their non-hidden directory entries. -/
def modulosEnRepoOdoo (env : Env) (repo branch : String) : List String :=
  (searchDirsOdoo.filter (fun d => env.isDir repo branch d)).flatMap
    (fun d => (env.listDir repo branch d).filter
      (fun name => env.isDir repo branch (d ++ [name]) && !startsWithDot name))

/-- The classification part shared by both variants' `log_repo_modules`:
`modulos_csv = set(mod for mod, _, _ in modules)` (modelled membership-
faithfully by `dedup`), then `instalados` / `no_encontrados` by membership
against `modulos_en_repo`. -/
def split_modules (modulos_en_repo : List String) (modules : List ModEntry) :
    List String × List String :=
  let modulos_csv := (modules.map (fun e => e.1)).dedup
  (modulos_csv.filter (fun m => modulos_en_repo.contains m),
   modulos_csv.filter (fun m => !modulos_en_repo.contains m))

/-- `log_repo_modules` of the oca variant (logging dropped; the returned
pair is all the caller consumes). -/
def log_repo_modules_oca (env : Env) (repo branch : String) (modules : List ModEntry) :
    List String × List String :=
  split_modules (modulosEnRepoOca env repo branch) modules

/-- `log_repo_modules` of the odoo variant. -/
def log_repo_modules_odoo (env : Env) (repo branch : String) (modules : List ModEntry) :
    List String × List String :=
  split_modules (modulosEnRepoOdoo env repo branch) modules

/-! ### The oca variant's `analyze_repos` (lines 147-197) -/

/-- The per-repository accumulator `resumen[repo]` of the oca variant:
`{"con_migrations": defaultdict(list), "sin": set(), "errores": [],
"no_encontrados": defaultdict(list)}`. -/
structure OcaAnalysis where
  con_migrations : List (String × List String) := []
  sin : List String := []
  errores : List String := []
  no_encontrados : List (String × List String) := []
deriving DecidableEq, Repr

/-- A `rows_full` record `[repo, module, estado, detalle, line]`. -/
abbrev RowFull := String × String × String × String × Nat

/-- The mutable state the oca walk threads: the current repository's
`resumen[repo]` plus the accumulators shared across repositories
(`migrar_global`, `rows_full`, `rows_resume`).  The `captures` field is the
event record of the `save_migrations(repo, branch, module, repo_dir)` calls
the walk issues; it stands for the script's filesystem side effect and has no
counterpart variable in the source. -/
structure OcaState where
  analysis : OcaAnalysis := {}
  migrar_global : List (String × List String) := []
  rows_full : List RowFull := []
  rows_resume : List (String × String × String) := []
  captures : List (String × String × String) := []
deriving DecidableEq, Repr

/-- `os.path.isdir(os.path.join(repo_dir, module, "migrations"))`: the
migrations probe both walks perform, always rooted at the top level of the
repository tree. -/
def migDir (env : Env) (repo branch module : String) : Bool :=
  env.isDir repo branch [module, "migrations"]

/-- Whether a `save_migrations(repo, branch, module, repo_dir)` invocation
copies anything: the function returns early unless
`os.path.isdir(os.path.join(src_root, module, "migrations"))`, and otherwise
performs the `shutil.copytree`. -/
def save_migrations_copies (env : Env) (repo branch module : String) : Bool :=
  migDir env repo branch module

/-- The body of `for module, _, line in modules:` in the oca variant
(lines 180-195): `no_encontrados` membership decides absence; otherwise
`os.path.isdir(repo_dir/module/migrations)` splits `con_migrations`
(with the optional `save_migrations` call guarded only by
`args.save_migrations`) from `sin`. -/
def ocaProcessModule (env : Env) (save_migrations : Bool) (repo branch : String)
    (no_encontrados : List String) (st : OcaState) (entry : ModEntry) : OcaState :=
  let module := entry.1
  let line := entry.2.2
  if no_encontrados.contains module then
    { st with analysis :=
        { st.analysis with
          no_encontrados := appendAt st.analysis.no_encontrados module branch } }
  else if migDir env repo branch module then
    { st with
      analysis :=
        { st.analysis with
          con_migrations := appendAt st.analysis.con_migrations module branch },
      migrar_global := appendAt st.migrar_global module branch,
      captures :=
        if save_migrations then st.captures ++ [(repo, branch, module)] else st.captures,
      rows_full := st.rows_full ++ [(repo, module, "Con migrations", branch, line)],
      rows_resume := st.rows_resume ++ [(repo, module, branch)] }
  else
    { st with
      analysis := { st.analysis with sin := insertSet st.analysis.sin module },
      rows_full := st.rows_full ++ [(repo, module, "Sin migrations", branch, line)] }

/-- One iteration of the oca branch loop after a successful existence probe
(lines 175-195): `ensure_repo_cloned` (a filesystem effect folded into
`Env`, see its docstring), `log_repo_modules`, then the module loop. -/
def ocaProcessBranch (env : Env) (args : Args) (repo : String) (modules : List ModEntry)
    (branch : String) (st : OcaState) : OcaState :=
  let no_encontrados := (log_repo_modules_oca env repo branch modules).2
  modules.foldl (ocaProcessModule env args.save_migrations repo branch no_encontrados) st

/-- The error block of the oca variant (lines 168-173): one `errores` string
and one `rows_full` error row per module entry, for the failing branch. -/
def ocaErrorBlock (repo branch : String) (modules : List ModEntry) (st : OcaState) : OcaState :=
  modules.foldl
    (fun st e =>
      { st with
        analysis :=
          { st.analysis with
            errores := st.analysis.errores ++
              [e.1 ++ " @ " ++ branch ++ " (repo no encontrado)"] },
        rows_full := st.rows_full ++
          [(repo, e.1, "Error", branch ++ ": repo no encontrado", e.2.2)] })
    st

/-- The `for branch in branches:` loop of the oca variant (lines 164-195):
a failed `repo_exists` probe runs the error block and `break`s (no later
branch is visited); a successful probe processes the branch and continues. -/
def ocaWalkBranches (env : Env) (args : Args) (repo : String) (modules : List ModEntry) :
    List String → OcaState → OcaState
  | [], st => st
  | branch :: rest, st =>
    if !(env.repoExists (ocaRepoUrl repo) branch) then
      ocaErrorBlock repo branch modules st
    else
      ocaWalkBranches env args repo modules rest (ocaProcessBranch env args repo modules branch st)

/-- The value `analyze_repos` of the oca variant returns:
`(resumen, migrar_global, rows_full, rows_resume)`, plus the capture-event
record. -/
structure OcaResult where
  resumen : List (String × OcaAnalysis)
  migrar_global : List (String × List String)
  rows_full : List RowFull
  rows_resume : List (String × String × String)
  captures : List (String × String × String)
deriving DecidableEq, Repr

/-- The `for repo, modules in repos_data.items():` loop of the oca variant:
each repository starts from a freshly initialized `resumen[repo]` while the
cross-repository accumulators persist in `st`. -/
def ocaReposLoop (env : Env) (args : Args) (branches : List String) :
    List (String × List ModEntry) → OcaState → List (String × OcaAnalysis) × OcaState
  | [], st => ([], st)
  | (repo, modules) :: rest, st =>
    let st' := ocaWalkBranches env args repo modules branches { st with analysis := {} }
    let r := ocaReposLoop env args branches rest st'
    ((repo, st'.analysis) :: r.1, r.2)

/-- `analyze_repos` of `oca-mig-analyzer.py` (lines 147-197). -/
def analyze_repos_oca (env : Env) (args : Args)
    (repos_data : List (String × List ModEntry)) : OcaResult :=
  let branches := mkBranches args.start_v args.end_v
  let r := ocaReposLoop env args branches repos_data {}
  { resumen := r.1
    migrar_global := r.2.migrar_global
    rows_full := r.2.rows_full
    rows_resume := r.2.rows_resume
    captures := r.2.captures }

/-! ### The odoo variant's `analyze_repos` (lines 162-209) -/

/-- The per-repository accumulator `resumen[repo]` of the odoo variant:
as in the oca variant plus the `lineas` dictionary. -/
structure OdooAnalysis where
  con_migrations : List (String × List String) := []
  sin_migrations : List String := []
  errores : List String := []
  no_encontrados : List (String × List String) := []
  lineas : List (String × Nat) := []
deriving DecidableEq, Repr

/-- The state of the odoo walk: the current repository's `resumen[repo]`,
the `csv_errors` list the walk shares with the parser and mutates in place
(line 186), and the `save_migrations` event record. -/
structure OdooState where
  analysis : OdooAnalysis := {}
  csv_errors : List (Nat × List String) := []
  captures : List (String × String × String) := []
deriving DecidableEq, Repr

/-- The body of `for module, _, line in modules:` in the odoo variant
(lines 194-207): record `lineas[module] = line`, then classify exactly as the
oca variant does (the migrations probe is at the top-level
`repo_dir/module/migrations` path, regardless of which search root the
module was discovered under). -/
def odooProcessModule (env : Env) (save_migrations : Bool) (repo branch : String)
    (no_encontrados : List String) (st : OdooState) (entry : ModEntry) : OdooState :=
  let module := entry.1
  let line := entry.2.2
  let st := { st with analysis :=
      { st.analysis with lineas := updAt st.analysis.lineas module line } }
  if no_encontrados.contains module then
    { st with analysis :=
        { st.analysis with
          no_encontrados := appendAt st.analysis.no_encontrados module branch } }
  else if migDir env repo branch module then
    { st with
      analysis :=
        { st.analysis with
          con_migrations := appendAt st.analysis.con_migrations module branch },
      captures :=
        if save_migrations then st.captures ++ [(repo, branch, module)] else st.captures }
  else
    { st with
      analysis :=
        { st.analysis with sin_migrations := insertSet st.analysis.sin_migrations module } }

/-- `repo_url = modules[0][1]` (odoo variant, line 179); `parse_csv` never
produces an empty module list for a present key, so the default is inert. -/
def odooRepoUrl (modules : List ModEntry) : String :=
  (modules.headD ("", "", 0)).2.1

/-- One iteration of the odoo branch loop after a successful probe
(lines 189-207). -/
def odooProcessBranch (env : Env) (args : Args) (repo : String) (modules : List ModEntry)
    (branch : String) (st : OdooState) : OdooState :=
  let no_encontrados := (log_repo_modules_odoo env repo branch modules).2
  modules.foldl (odooProcessModule env args.save_migrations repo branch no_encontrados) st

/-- The error block of the odoo variant (lines 182-187): one `errores` string
per module entry and one `(line, [mod, repo_url])` record appended to the
shared `csv_errors` list. -/
def odooErrorBlock (repo_url branch : String) (modules : List ModEntry) (st : OdooState) :
    OdooState :=
  modules.foldl
    (fun st e =>
      { st with
        analysis :=
          { st.analysis with
            errores := st.analysis.errores ++
              [e.1 ++ " @ " ++ branch ++ " (repo no encontrado)"] },
        csv_errors := st.csv_errors ++ [(e.2.2, [e.1, repo_url])] })
    st

/-- The `for branch in branches:` loop of the odoo variant (lines 178-207). -/
def odooWalkBranches (env : Env) (args : Args) (repo : String) (modules : List ModEntry) :
    List String → OdooState → OdooState
  | [], st => st
  | branch :: rest, st =>
    if !(env.repoExists (odooRepoUrl modules) branch) then
      odooErrorBlock (odooRepoUrl modules) branch modules st
    else
      odooWalkBranches env args repo modules rest
        (odooProcessBranch env args repo modules branch st)

/-- The value `analyze_repos` of the odoo variant produces: `resumen`
(returned) and the mutated `csv_errors` list, plus the capture events. -/
structure OdooResult where
  resumen : List (String × OdooAnalysis)
  csv_errors : List (Nat × List String)
  captures : List (String × String × String)
deriving DecidableEq, Repr

/-- The repository loop of the odoo variant. -/
def odooReposLoop (env : Env) (args : Args) (branches : List String) :
    List (String × List ModEntry) → OdooState → List (String × OdooAnalysis) × OdooState
  | [], st => ([], st)
  | (repo, modules) :: rest, st =>
    let st' := odooWalkBranches env args repo modules branches { st with analysis := {} }
    let r := odooReposLoop env args branches rest st'
    ((repo, st'.analysis) :: r.1, r.2)

/-- `analyze_repos` of `odoo-mig-analyzer.py` (lines 162-209); `csv_errors`
enters as the list `parse_csv` produced and leaves with the walk's
repository-not-found appends. -/
def analyze_repos_odoo (env : Env) (args : Args)
    (repos_data : List (String × List ModEntry))
    (csv_errors : List (Nat × List String)) : OdooResult :=
  let branches := mkBranches args.start_v args.end_v
  let r := odooReposLoop env args branches repos_data { csv_errors := csv_errors }
  { resumen := r.1
    csv_errors := r.2.csv_errors
    captures := r.2.captures }

/-! ### Derived notions used to state the claims -/

/-- Whether catalogue module `m` is present in the repository tree at
`branch` for the oca variant: membership in `modulos_en_repo`. -/
def presentOca (env : Env) (repo branch m : String) : Bool :=
  (modulosEnRepoOca env repo branch).contains m

/-- Whether catalogue module `m` is present in the repository tree at
`branch` for the odoo variant (any of the three search roots). -/
def presentOdoo (env : Env) (repo branch m : String) : Bool :=
  (modulosEnRepoOdoo env repo branch).contains m

/-- The branches whose iteration completed the classification body: the
longest prefix of `branches` on which the existence probe of `url`
succeeds.  The walk processes exactly these branches. -/
def processedBranches (env : Env) (url : String) : List String → List String
  | [] => []
  | b :: rest =>
    if env.repoExists url b then b :: processedBranches env url rest else []

/-- The branch at which the walk's existence probe fails and the walk
short-circuits (`none` when every probe in `branches` succeeds). -/
def failedBranch (env : Env) (url : String) : List String → Option String
  | [] => none
  | b :: rest =>
    if env.repoExists url b then failedBranch env url rest else some b

/-- The error string the error block records for module `m` at `branch`:
`f"{mod} @ {branch} (repo no encontrado)"`. -/
def errString (m branch : String) : String :=
  m ++ " @ " ++ branch ++ " (repo no encontrado)"

/-- "Module `m` was added to `sin` / `sin_migrations` via version `v`": the
classification body ran at `v` (the probe succeeded there and at every
earlier branch), `m` is a catalogue module of the repository, it is present
in the tree at `v` and its top-level migrations probe is negative.  `sin`
itself is a flat set; this is the event that inserts into it. -/
def sinViaOca (env : Env) (repo : String) (modules : List ModEntry)
    (branches : List String) (m v : String) : Prop :=
  v ∈ processedBranches env (ocaRepoUrl repo) branches ∧
    m ∈ modules.map (fun e => e.1) ∧
    presentOca env repo v m = true ∧ migDir env repo v m = false

/-- The odoo-variant analogue of `sinViaOca`. -/
def sinViaOdoo (env : Env) (repo : String) (modules : List ModEntry)
    (branches : List String) (m v : String) : Prop :=
  v ∈ processedBranches env (odooRepoUrl modules) branches ∧
    m ∈ modules.map (fun e => e.1) ∧
    presentOdoo env repo v m = true ∧ migDir env repo v m = false

/-- "An `errores` record was produced for `(m, v)`": the walk's probe failed
at `v` (so the error block ran there) and `m` is one of the repository's
catalogue modules.  The error block appends exactly the strings
`errString m v` for these `m` (see the characterization theorems). -/
def errViaOca (env : Env) (repo : String) (modules : List ModEntry)
    (branches : List String) (m v : String) : Prop :=
  failedBranch env (ocaRepoUrl repo) branches = some v ∧
    m ∈ modules.map (fun e => e.1)

/-- The odoo-variant analogue of `errViaOca`. -/
def errViaOdoo (env : Env) (modules : List ModEntry)
    (branches : List String) (m v : String) : Prop :=
  failedBranch env (odooRepoUrl modules) branches = some v ∧
    m ∈ modules.map (fun e => e.1)

/-! ### Concrete inputs used for witnesses and counterexamples -/

/-- A snapshot state with one repository tree holding a single module `m1`
whose migrations directory exists at `14.0` but not later, and whose
existence probe fails from `16.0` on. -/
def envA : Env :=
  { repoExists := fun _ b => !(b = "16.0" || b = "17.0")
    isDir := fun _ b p =>
      decide (p = [] ∨ p = ["m1"] ∨ (p = ["m1", "migrations"] ∧ b = "14.0"))
    listDir := fun _ _ p => if p = [] then ["m1", ".git"] else [] }

/-- A snapshot state whose existence probe always fails. -/
def envDown : Env :=
  { repoExists := fun _ _ => false
    isDir := fun _ _ _ => false
    listDir := fun _ _ _ => [] }

/-- A snapshot state with module `m` present at top level with a migrations
directory at every branch, and an always-successful probe. -/
def envUp : Env :=
  { repoExists := fun _ _ => true
    isDir := fun _ _ p => decide (p = [] ∨ p = ["m"] ∨ p = ["m", "migrations"])
    listDir := fun _ _ p => if p = [] then ["m"] else [] }

/-- The nested-layout snapshot of the odoo variant's claim C6: module `m`
lives only under the secondary search root `addons/`, where its migrations
directory exists; nothing named `m` exists at the top level. -/
def envNested : Env :=
  { repoExists := fun _ _ => true
    isDir := fun _ _ p =>
      decide (p = [] ∨ p = ["addons"] ∨ p = ["addons", "m"] ∨ p = ["addons", "m", "migrations"])
    listDir := fun _ _ p =>
      if p = ["addons"] then ["m"] else if p = [] then ["addons"] else [] }

/-- The catalogue module names of a repository's entry list. -/
def namesOf (modules : List ModEntry) : List String :=
  modules.map (fun e => e.1)

/-- The per-branch condition under which a module-loop iteration for a module
named `m` appends `b` to `con_migrations[m]` in the oca variant: `m` not in
`no_encontrados` and the top-level migrations probe positive. -/
def conCondOca (env : Env) (repo : String) (modules : List ModEntry) (m b : String) : Bool :=
  !((log_repo_modules_oca env repo b modules).2.contains m) && migDir env repo b m

/-- The per-branch condition under which a module-loop iteration for `m`
appends `b` to `no_encontrados[m]` in the oca variant. -/
def nfCondOca (env : Env) (repo : String) (modules : List ModEntry) (m b : String) : Bool :=
  (log_repo_modules_oca env repo b modules).2.contains m

/-- The odoo analogue of `conCondOca`. -/
def conCondOdoo (env : Env) (repo : String) (modules : List ModEntry) (m b : String) : Bool :=
  !((log_repo_modules_odoo env repo b modules).2.contains m) && migDir env repo b m

/-- The odoo analogue of `nfCondOca`. -/
def nfCondOdoo (env : Env) (repo : String) (modules : List ModEntry) (m b : String) : Bool :=
  (log_repo_modules_odoo env repo b modules).2.contains m

/-- The `RepositoryAnalysis` the oca walk produces for one repository: the
walk over `branches` started, as in `analyze_repos`, from a freshly
initialized `resumen[repo]` (the cross-repository accumulators do not feed
back into it; see `ocaWalk_analysis_congr`). -/
def ocaRepoAnalysis (env : Env) (args : Args) (repo : String) (modules : List ModEntry)
    (branches : List String) : OcaAnalysis :=
  (ocaWalkBranches env args repo modules branches {}).analysis

/-- The odoo analogue of `ocaRepoAnalysis`. -/
def odooRepoAnalysis (env : Env) (args : Args) (repo : String) (modules : List ModEntry)
    (branches : List String) : OdooAnalysis :=
  (odooWalkBranches env args repo modules branches {}).analysis

/-- Two catalogue rows that differ at most in the repository-URL field and
whose URLs extract to the same repository identifier: either both are
structurally malformed (fewer than two fields), or both start with the same
module field followed by extraction-equivalent URL fields. -/
def RelRow (r₁ r₂ : List String) : Prop :=
  (r₁.length < 2 ∧ r₂.length < 2) ∨
    (∃ m u₁ u₂ t₁ t₂, r₁ = m :: u₁ :: t₁ ∧ r₂ = m :: u₂ :: t₂ ∧
      extract_repo_name (pyStrip u₁) = extract_repo_name (pyStrip u₂))

/-- Module entries that agree in module name and line number (the URL field
is unconstrained). -/
def RelEntry (e₁ e₂ : ModEntry) : Prop :=
  e₁.1 = e₂.1 ∧ e₁.2.2 = e₂.2.2

/-- Parsed catalogues that agree on repository keys (in order) and,
entrywise, on module names and line numbers. -/
def RelData (d₁ d₂ : List (String × List ModEntry)) : Prop :=
  List.Forall₂ (fun p q => p.1 = q.1 ∧ List.Forall₂ RelEntry p.2 q.2) d₁ d₂

/-! ## Theorems

First the container primitives, then per-loop characterizations of both
walks, finally the claims. -/

theorem lookupList_appendAt {α : Type} (d : List (String × List α)) (k : String) (v : α)
    (k' : String) :
    lookupList (appendAt d k v) k' =
      if k' = k then lookupList d k' ++ [v] else lookupList d k' := by
  induction d with
  | nil =>
    by_cases h : k' = k <;> simp [appendAt, lookupList, h]
  | cons p rest ih =>
    obtain ⟨k₀, vs⟩ := p
    by_cases h0 : k₀ = k
    · subst h0
      by_cases h1 : k' = k₀ <;> simp [appendAt, lookupList, h1]
    · by_cases h1 : k' = k₀
      · subst h1
        simp [appendAt, lookupList, h0, Ne.symm h0]
      · simp [appendAt, lookupList, h0, h1, ih]

theorem mem_insertSet (s : List String) (n m : String) :
    m ∈ insertSet s n ↔ m ∈ s ∨ m = n := by
  unfold insertSet
  by_cases h : s.contains n
  · simp only [h, if_true]
    simp only [List.elem_eq_mem, decide_eq_true_eq] at h
    constructor
    · exact Or.inl
    · rintro (hm | rfl)
      · exact hm
      · exact h
  · simp only [List.elem_eq_mem, decide_eq_true_eq] at h
    simp [h]

theorem mem_no_encontrados_oca (env : Env) (repo b : String) (modules : List ModEntry)
    (m : String) :
    m ∈ (log_repo_modules_oca env repo b modules).2 ↔
      m ∈ namesOf modules ∧ presentOca env repo b m = false := by
  simp [log_repo_modules_oca, split_modules, presentOca, namesOf, List.mem_filter,
    List.mem_dedup]

theorem mem_no_encontrados_odoo (env : Env) (repo b : String) (modules : List ModEntry)
    (m : String) :
    m ∈ (log_repo_modules_odoo env repo b modules).2 ↔
      m ∈ namesOf modules ∧ presentOdoo env repo b m = false := by
  simp [log_repo_modules_odoo, split_modules, presentOdoo, namesOf, List.mem_filter,
    List.mem_dedup]

theorem nfCondOca_eq (env : Env) (repo : String) (modules : List ModEntry) (m b : String) :
    nfCondOca env repo modules m b
      = ((namesOf modules).contains m && !presentOca env repo b m) := by
  apply Bool.coe_iff_coe.mp
  simp only [nfCondOca, Bool.and_eq_true, Bool.not_eq_true', List.elem_eq_mem,
    decide_eq_true_eq]
  exact mem_no_encontrados_oca env repo b modules m

theorem nfCondOdoo_eq (env : Env) (repo : String) (modules : List ModEntry) (m b : String) :
    nfCondOdoo env repo modules m b
      = ((namesOf modules).contains m && !presentOdoo env repo b m) := by
  apply Bool.coe_iff_coe.mp
  simp only [nfCondOdoo, Bool.and_eq_true, Bool.not_eq_true', List.elem_eq_mem,
    decide_eq_true_eq]
  exact mem_no_encontrados_odoo env repo b modules m

theorem ocaLoop_con (env : Env) (sv : Bool) (repo b : String) (ne : List String)
    (m : String) (es : List ModEntry) :
    ∀ st : OcaState,
      lookupList (es.foldl (ocaProcessModule env sv repo b ne) st).analysis.con_migrations m
        = lookupList st.analysis.con_migrations m ++
          (if !ne.contains m && migDir env repo b m then
            List.replicate ((namesOf es).count m) b
          else []) := by
  induction es with
  | nil => intro st; simp [namesOf]
  | cons e es ih =>
    intro st
    rw [List.foldl_cons, ih]
    by_cases hm : e.1 = m
    · subst hm
      by_cases h1 : e.1 ∈ ne
      · simp [ocaProcessModule, h1]
      · by_cases h2 : migDir env repo b e.1
        · simp [ocaProcessModule, h1, h2, lookupList_appendAt, namesOf, List.count_cons]
          rw [← List.replicate_succ]
        · simp [ocaProcessModule, h1, h2, namesOf, List.count_cons]
    · have hcount : (namesOf (e :: es)).count m = (namesOf es).count m := by
        simp [namesOf, List.count_cons, hm]
      rw [hcount]
      by_cases h1 : e.1 ∈ ne
      · simp [ocaProcessModule, h1]
      · by_cases h2 : migDir env repo b e.1
        · simp [ocaProcessModule, h1, h2, lookupList_appendAt, hm, Ne.symm hm]
        · simp [ocaProcessModule, h1, h2]

theorem ocaLoop_nf (env : Env) (sv : Bool) (repo b : String) (ne : List String)
    (m : String) (es : List ModEntry) :
    ∀ st : OcaState,
      lookupList (es.foldl (ocaProcessModule env sv repo b ne) st).analysis.no_encontrados m
        = lookupList st.analysis.no_encontrados m ++
          (if ne.contains m then List.replicate ((namesOf es).count m) b else []) := by
  induction es with
  | nil => intro st; simp [namesOf]
  | cons e es ih =>
    intro st
    rw [List.foldl_cons, ih]
    by_cases hm : e.1 = m
    · subst hm
      by_cases h1 : e.1 ∈ ne
      · simp [ocaProcessModule, h1, lookupList_appendAt, namesOf, List.count_cons]
        rw [← List.replicate_succ]
      · by_cases h2 : migDir env repo b e.1
        · simp [ocaProcessModule, h1, h2, lookupList_appendAt, namesOf, List.count_cons]
        · simp [ocaProcessModule, h1, h2, namesOf, List.count_cons]
    · have hcount : (namesOf (e :: es)).count m = (namesOf es).count m := by
        simp [namesOf, List.count_cons, hm]
      rw [hcount]
      by_cases h1 : e.1 ∈ ne
      · simp [ocaProcessModule, h1, lookupList_appendAt, hm, Ne.symm hm]
      · by_cases h2 : migDir env repo b e.1
        · simp [ocaProcessModule, h1, h2]
        · simp [ocaProcessModule, h1, h2]

theorem ocaLoop_sin (env : Env) (sv : Bool) (repo b : String) (ne : List String)
    (m : String) (es : List ModEntry) :
    ∀ st : OcaState,
      m ∈ (es.foldl (ocaProcessModule env sv repo b ne) st).analysis.sin
        ↔ m ∈ st.analysis.sin ∨
          (m ∈ namesOf es ∧ m ∉ ne ∧ migDir env repo b m = false) := by
  induction es with
  | nil => intro st; simp [namesOf]
  | cons e es ih =>
    intro st
    rw [List.foldl_cons, ih]
    by_cases hm : e.1 = m
    · subst hm
      by_cases h1 : e.1 ∈ ne
      · simp [ocaProcessModule, h1, namesOf]
      · by_cases h2 : migDir env repo b e.1
        · simp [ocaProcessModule, h1, h2, namesOf]
        · simp [ocaProcessModule, h1, h2, namesOf, mem_insertSet]
    · by_cases h1 : e.1 ∈ ne
      · simp [ocaProcessModule, h1, namesOf, hm, Ne.symm hm]
      · by_cases h2 : migDir env repo b e.1
        · simp [ocaProcessModule, h1, h2, namesOf, hm, Ne.symm hm]
        · simp [ocaProcessModule, h1, h2, namesOf, mem_insertSet, hm, Ne.symm hm]

theorem ocaLoop_err (env : Env) (sv : Bool) (repo b : String) (ne : List String)
    (es : List ModEntry) :
    ∀ st : OcaState,
      (es.foldl (ocaProcessModule env sv repo b ne) st).analysis.errores
        = st.analysis.errores := by
  induction es with
  | nil => intro st; rfl
  | cons e es ih =>
    intro st
    rw [List.foldl_cons, ih]
    by_cases h1 : e.1 ∈ ne
    · simp [ocaProcessModule, h1]
    · by_cases h2 : migDir env repo b e.1
      · simp [ocaProcessModule, h1, h2]
      · simp [ocaProcessModule, h1, h2]

theorem ocaErrorBlock_err (repo branch : String) (modules : List ModEntry) :
    ∀ st : OcaState,
      (ocaErrorBlock repo branch modules st).analysis.errores
        = st.analysis.errores ++ modules.map (fun e => errString e.1 branch) := by
  unfold ocaErrorBlock
  induction modules with
  | nil => intro st; simp
  | cons e es ih =>
    intro st
    rw [List.foldl_cons, ih]
    simp [errString]

theorem ocaErrorBlock_classif (repo branch : String) (modules : List ModEntry) :
    ∀ st : OcaState,
      (ocaErrorBlock repo branch modules st).analysis.con_migrations
          = st.analysis.con_migrations ∧
        (ocaErrorBlock repo branch modules st).analysis.no_encontrados
          = st.analysis.no_encontrados ∧
        (ocaErrorBlock repo branch modules st).analysis.sin = st.analysis.sin := by
  unfold ocaErrorBlock
  induction modules with
  | nil => intro st; exact ⟨rfl, rfl, rfl⟩
  | cons e es ih =>
    intro st
    rw [List.foldl_cons]
    exact ih _

theorem odooLoop_con (env : Env) (sv : Bool) (repo b : String) (ne : List String)
    (m : String) (es : List ModEntry) :
    ∀ st : OdooState,
      lookupList (es.foldl (odooProcessModule env sv repo b ne) st).analysis.con_migrations m
        = lookupList st.analysis.con_migrations m ++
          (if !ne.contains m && migDir env repo b m then
            List.replicate ((namesOf es).count m) b
          else []) := by
  induction es with
  | nil => intro st; simp [namesOf]
  | cons e es ih =>
    intro st
    rw [List.foldl_cons, ih]
    by_cases hm : e.1 = m
    · subst hm
      by_cases h1 : e.1 ∈ ne
      · simp [odooProcessModule, h1]
      · by_cases h2 : migDir env repo b e.1
        · simp [odooProcessModule, h1, h2, lookupList_appendAt, namesOf, List.count_cons]
          rw [← List.replicate_succ]
        · simp [odooProcessModule, h1, h2, namesOf, List.count_cons]
    · have hcount : (namesOf (e :: es)).count m = (namesOf es).count m := by
        simp [namesOf, List.count_cons, hm]
      rw [hcount]
      by_cases h1 : e.1 ∈ ne
      · simp [odooProcessModule, h1]
      · by_cases h2 : migDir env repo b e.1
        · simp [odooProcessModule, h1, h2, lookupList_appendAt, hm, Ne.symm hm]
        · simp [odooProcessModule, h1, h2]

theorem odooLoop_nf (env : Env) (sv : Bool) (repo b : String) (ne : List String)
    (m : String) (es : List ModEntry) :
    ∀ st : OdooState,
      lookupList (es.foldl (odooProcessModule env sv repo b ne) st).analysis.no_encontrados m
        = lookupList st.analysis.no_encontrados m ++
          (if ne.contains m then List.replicate ((namesOf es).count m) b else []) := by
  induction es with
  | nil => intro st; simp [namesOf]
  | cons e es ih =>
    intro st
    rw [List.foldl_cons, ih]
    by_cases hm : e.1 = m
    · subst hm
      by_cases h1 : e.1 ∈ ne
      · simp [odooProcessModule, h1, lookupList_appendAt, namesOf, List.count_cons]
        rw [← List.replicate_succ]
      · by_cases h2 : migDir env repo b e.1
        · simp [odooProcessModule, h1, h2, lookupList_appendAt, namesOf, List.count_cons]
        · simp [odooProcessModule, h1, h2, namesOf, List.count_cons]
    · have hcount : (namesOf (e :: es)).count m = (namesOf es).count m := by
        simp [namesOf, List.count_cons, hm]
      rw [hcount]
      by_cases h1 : e.1 ∈ ne
      · simp [odooProcessModule, h1, lookupList_appendAt, hm, Ne.symm hm]
      · by_cases h2 : migDir env repo b e.1
        · simp [odooProcessModule, h1, h2]
        · simp [odooProcessModule, h1, h2]

theorem odooLoop_sin (env : Env) (sv : Bool) (repo b : String) (ne : List String)
    (m : String) (es : List ModEntry) :
    ∀ st : OdooState,
      m ∈ (es.foldl (odooProcessModule env sv repo b ne) st).analysis.sin_migrations
        ↔ m ∈ st.analysis.sin_migrations ∨
          (m ∈ namesOf es ∧ m ∉ ne ∧ migDir env repo b m = false) := by
  induction es with
  | nil => intro st; simp [namesOf]
  | cons e es ih =>
    intro st
    rw [List.foldl_cons, ih]
    by_cases hm : e.1 = m
    · subst hm
      by_cases h1 : e.1 ∈ ne
      · simp [odooProcessModule, h1, namesOf]
      · by_cases h2 : migDir env repo b e.1
        · simp [odooProcessModule, h1, h2, namesOf]
        · simp [odooProcessModule, h1, h2, namesOf, mem_insertSet]
    · by_cases h1 : e.1 ∈ ne
      · simp [odooProcessModule, h1, namesOf, hm, Ne.symm hm]
      · by_cases h2 : migDir env repo b e.1
        · simp [odooProcessModule, h1, h2, namesOf, hm, Ne.symm hm]
        · simp [odooProcessModule, h1, h2, namesOf, mem_insertSet, hm, Ne.symm hm]

theorem odooLoop_err (env : Env) (sv : Bool) (repo b : String) (ne : List String)
    (es : List ModEntry) :
    ∀ st : OdooState,
      (es.foldl (odooProcessModule env sv repo b ne) st).analysis.errores
        = st.analysis.errores := by
  induction es with
  | nil => intro st; rfl
  | cons e es ih =>
    intro st
    rw [List.foldl_cons, ih]
    by_cases h1 : e.1 ∈ ne
    · simp [odooProcessModule, h1]
    · by_cases h2 : migDir env repo b e.1
      · simp [odooProcessModule, h1, h2]
      · simp [odooProcessModule, h1, h2]

theorem odooLoop_csv (env : Env) (sv : Bool) (repo b : String) (ne : List String)
    (es : List ModEntry) :
    ∀ st : OdooState,
      (es.foldl (odooProcessModule env sv repo b ne) st).csv_errors = st.csv_errors := by
  induction es with
  | nil => intro st; rfl
  | cons e es ih =>
    intro st
    rw [List.foldl_cons, ih]
    by_cases h1 : e.1 ∈ ne
    · simp [odooProcessModule, h1]
    · by_cases h2 : migDir env repo b e.1
      · simp [odooProcessModule, h1, h2]
      · simp [odooProcessModule, h1, h2]

theorem odooErrorBlock_err (repo_url branch : String) (modules : List ModEntry) :
    ∀ st : OdooState,
      (odooErrorBlock repo_url branch modules st).analysis.errores
        = st.analysis.errores ++ modules.map (fun e => errString e.1 branch) := by
  unfold odooErrorBlock
  induction modules with
  | nil => intro st; simp
  | cons e es ih =>
    intro st
    rw [List.foldl_cons, ih]
    simp [errString]

theorem odooErrorBlock_csv (repo_url branch : String) (modules : List ModEntry) :
    ∀ st : OdooState,
      (odooErrorBlock repo_url branch modules st).csv_errors
        = st.csv_errors ++ modules.map (fun e => (e.2.2, [e.1, repo_url])) := by
  unfold odooErrorBlock
  induction modules with
  | nil => intro st; simp
  | cons e es ih =>
    intro st
    rw [List.foldl_cons, ih]
    simp

theorem odooErrorBlock_classif (repo_url branch : String) (modules : List ModEntry) :
    ∀ st : OdooState,
      (odooErrorBlock repo_url branch modules st).analysis.con_migrations
          = st.analysis.con_migrations ∧
        (odooErrorBlock repo_url branch modules st).analysis.no_encontrados
          = st.analysis.no_encontrados ∧
        (odooErrorBlock repo_url branch modules st).analysis.sin_migrations
          = st.analysis.sin_migrations := by
  unfold odooErrorBlock
  induction modules with
  | nil => intro st; exact ⟨rfl, rfl, rfl⟩
  | cons e es ih =>
    intro st
    rw [List.foldl_cons]
    exact ih _

theorem mem_processedBranches (env : Env) (url : String) :
    ∀ bs : List String, ∀ v ∈ processedBranches env url bs,
      env.repoExists url v = true := by
  intro bs
  induction bs with
  | nil => intro v hv; simp [processedBranches] at hv
  | cons b rest ih =>
    intro v hv
    by_cases h : env.repoExists url b
    · simp only [processedBranches, h, if_true, List.mem_cons] at hv
      rcases hv with rfl | hv
      · exact h
      · exact ih v hv
    · simp [processedBranches, h] at hv

theorem failedBranch_spec (env : Env) (url : String) :
    ∀ bs : List String, ∀ v : String, failedBranch env url bs = some v →
      env.repoExists url v = false := by
  intro bs
  induction bs with
  | nil => intro v hv; simp [failedBranch] at hv
  | cons b rest ih =>
    intro v hv
    by_cases h : env.repoExists url b
    · simp only [failedBranch, h, if_true] at hv
      exact ih v hv
    · simp only [failedBranch, h, if_false, Bool.false_eq_true, Option.some.injEq] at hv
      subst hv
      simpa using h

theorem processedBranches_sublist (env : Env) (url : String) :
    ∀ bs : List String, List.Sublist (processedBranches env url bs) bs := by
  intro bs
  induction bs with
  | nil => simp [processedBranches]
  | cons b rest ih =>
    by_cases h : env.repoExists url b
    · simpa [processedBranches, h] using List.Sublist.cons₂ b ih
    · simp [processedBranches, h]

theorem ocaProcessModule_analysis_congr (env : Env) (sv : Bool) (repo b : String)
    (ne : List String) (e : ModEntry) (st₁ st₂ : OcaState)
    (h : st₁.analysis = st₂.analysis) :
    (ocaProcessModule env sv repo b ne st₁ e).analysis
      = (ocaProcessModule env sv repo b ne st₂ e).analysis := by
  by_cases h1 : e.1 ∈ ne
  · simp [ocaProcessModule, h1, h]
  · by_cases h2 : migDir env repo b e.1
    · simp [ocaProcessModule, h1, h2, h]
    · simp [ocaProcessModule, h1, h2, h]

theorem ocaLoop_analysis_congr (env : Env) (sv : Bool) (repo b : String)
    (ne : List String) (es : List ModEntry) :
    ∀ st₁ st₂ : OcaState, st₁.analysis = st₂.analysis →
      (es.foldl (ocaProcessModule env sv repo b ne) st₁).analysis
        = (es.foldl (ocaProcessModule env sv repo b ne) st₂).analysis := by
  induction es with
  | nil => intro _ _ h; exact h
  | cons e es ih =>
    intro st₁ st₂ h
    rw [List.foldl_cons, List.foldl_cons]
    exact ih _ _ (ocaProcessModule_analysis_congr env sv repo b ne e st₁ st₂ h)

theorem ocaErrorBlock_analysis_congr (repo branch : String) (modules : List ModEntry) :
    ∀ st₁ st₂ : OcaState, st₁.analysis = st₂.analysis →
      (ocaErrorBlock repo branch modules st₁).analysis
        = (ocaErrorBlock repo branch modules st₂).analysis := by
  unfold ocaErrorBlock
  induction modules with
  | nil => intro _ _ h; exact h
  | cons e es ih =>
    intro st₁ st₂ h
    rw [List.foldl_cons, List.foldl_cons]
    exact ih _ _ (by simp [h])

theorem ocaWalk_analysis_congr (env : Env) (args : Args) (repo : String)
    (modules : List ModEntry) :
    ∀ bs : List String, ∀ st₁ st₂ : OcaState, st₁.analysis = st₂.analysis →
      (ocaWalkBranches env args repo modules bs st₁).analysis
        = (ocaWalkBranches env args repo modules bs st₂).analysis := by
  intro bs
  induction bs with
  | nil => intro _ _ h; exact h
  | cons b rest ih =>
    intro st₁ st₂ h
    by_cases hp : env.repoExists (ocaRepoUrl repo) b
    · simp only [ocaWalkBranches, hp, Bool.not_true, Bool.false_eq_true, if_false]
      exact ih _ _ (ocaLoop_analysis_congr env args.save_migrations repo b _ modules _ _ h)
    · simp only [ocaWalkBranches, Bool.not_eq_true] at hp ⊢
      rw [hp]
      simp only [Bool.not_false, if_true]
      exact ocaErrorBlock_analysis_congr repo b modules st₁ st₂ h

theorem odooProcessModule_analysis_congr (env : Env) (sv : Bool) (repo b : String)
    (ne : List String) (e : ModEntry) (st₁ st₂ : OdooState)
    (h : st₁.analysis = st₂.analysis) :
    (odooProcessModule env sv repo b ne st₁ e).analysis
      = (odooProcessModule env sv repo b ne st₂ e).analysis := by
  by_cases h1 : e.1 ∈ ne
  · simp [odooProcessModule, h1, h]
  · by_cases h2 : migDir env repo b e.1
    · simp [odooProcessModule, h1, h2, h]
    · simp [odooProcessModule, h1, h2, h]

theorem odooLoop_analysis_congr (env : Env) (sv : Bool) (repo b : String)
    (ne : List String) (es : List ModEntry) :
    ∀ st₁ st₂ : OdooState, st₁.analysis = st₂.analysis →
      (es.foldl (odooProcessModule env sv repo b ne) st₁).analysis
        = (es.foldl (odooProcessModule env sv repo b ne) st₂).analysis := by
  induction es with
  | nil => intro _ _ h; exact h
  | cons e es ih =>
    intro st₁ st₂ h
    rw [List.foldl_cons, List.foldl_cons]
    exact ih _ _ (odooProcessModule_analysis_congr env sv repo b ne e st₁ st₂ h)

theorem odooErrorBlock_analysis_congr (repo_url branch : String) (modules : List ModEntry) :
    ∀ st₁ st₂ : OdooState, st₁.analysis = st₂.analysis →
      (odooErrorBlock repo_url branch modules st₁).analysis
        = (odooErrorBlock repo_url branch modules st₂).analysis := by
  unfold odooErrorBlock
  induction modules with
  | nil => intro _ _ h; exact h
  | cons e es ih =>
    intro st₁ st₂ h
    rw [List.foldl_cons, List.foldl_cons]
    exact ih _ _ (by simp [h])

theorem odooWalk_analysis_congr (env : Env) (args : Args) (repo : String)
    (modules : List ModEntry) :
    ∀ bs : List String, ∀ st₁ st₂ : OdooState, st₁.analysis = st₂.analysis →
      (odooWalkBranches env args repo modules bs st₁).analysis
        = (odooWalkBranches env args repo modules bs st₂).analysis := by
  intro bs
  induction bs with
  | nil => intro _ _ h; exact h
  | cons b rest ih =>
    intro st₁ st₂ h
    by_cases hp : env.repoExists (odooRepoUrl modules) b
    · simp only [odooWalkBranches, hp, Bool.not_true, Bool.false_eq_true, if_false]
      exact ih _ _ (odooLoop_analysis_congr env args.save_migrations repo b _ modules _ _ h)
    · simp only [odooWalkBranches, Bool.not_eq_true] at hp ⊢
      rw [hp]
      simp only [Bool.not_false, if_true]
      exact odooErrorBlock_analysis_congr (odooRepoUrl modules) b modules st₁ st₂ h

theorem ocaWalk_con (env : Env) (args : Args) (repo : String) (modules : List ModEntry)
    (m : String) :
    ∀ bs : List String, ∀ st : OcaState,
      lookupList (ocaWalkBranches env args repo modules bs st).analysis.con_migrations m
        = lookupList st.analysis.con_migrations m ++
          (processedBranches env (ocaRepoUrl repo) bs).flatMap
            (fun b => if conCondOca env repo modules m b then
              List.replicate ((namesOf modules).count m) b
            else []) := by
  intro bs
  induction bs with
  | nil => intro st; simp [ocaWalkBranches, processedBranches]
  | cons b rest ih =>
    intro st
    by_cases hp : env.repoExists (ocaRepoUrl repo) b
    · simp only [ocaWalkBranches, hp, Bool.not_true, Bool.false_eq_true, if_false]
      rw [ih]
      show lookupList (List.foldl _ st modules).analysis.con_migrations m ++ _ = _
      rw [ocaLoop_con]
      simp only [processedBranches, hp, if_true, List.flatMap_cons, conCondOca,
        List.append_assoc]
    · simp only [ocaWalkBranches, Bool.not_eq_true] at hp ⊢
      rw [hp]
      simp only [Bool.not_false, if_true, processedBranches, hp, Bool.false_eq_true, if_false,
        List.flatMap_nil, List.append_nil]
      exact congrArg (fun d => lookupList d m) (ocaErrorBlock_classif repo b modules st).1

theorem ocaWalk_nf (env : Env) (args : Args) (repo : String) (modules : List ModEntry)
    (m : String) :
    ∀ bs : List String, ∀ st : OcaState,
      lookupList (ocaWalkBranches env args repo modules bs st).analysis.no_encontrados m
        = lookupList st.analysis.no_encontrados m ++
          (processedBranches env (ocaRepoUrl repo) bs).flatMap
            (fun b => if nfCondOca env repo modules m b then
              List.replicate ((namesOf modules).count m) b
            else []) := by
  intro bs
  induction bs with
  | nil => intro st; simp [ocaWalkBranches, processedBranches]
  | cons b rest ih =>
    intro st
    by_cases hp : env.repoExists (ocaRepoUrl repo) b
    · simp only [ocaWalkBranches, hp, Bool.not_true, Bool.false_eq_true, if_false]
      rw [ih]
      show lookupList (List.foldl _ st modules).analysis.no_encontrados m ++ _ = _
      rw [ocaLoop_nf]
      simp only [processedBranches, hp, if_true, List.flatMap_cons, nfCondOca,
        List.append_assoc]
    · simp only [ocaWalkBranches, Bool.not_eq_true] at hp ⊢
      rw [hp]
      simp only [Bool.not_false, if_true, processedBranches, hp, Bool.false_eq_true, if_false,
        List.flatMap_nil, List.append_nil]
      exact congrArg (fun d => lookupList d m) (ocaErrorBlock_classif repo b modules st).2.1

theorem ocaWalk_sin (env : Env) (args : Args) (repo : String) (modules : List ModEntry)
    (m : String) :
    ∀ bs : List String, ∀ st : OcaState,
      m ∈ (ocaWalkBranches env args repo modules bs st).analysis.sin
        ↔ m ∈ st.analysis.sin ∨
          ∃ b ∈ processedBranches env (ocaRepoUrl repo) bs,
            m ∈ namesOf modules ∧ presentOca env repo b m = true ∧
              migDir env repo b m = false := by
  intro bs
  induction bs with
  | nil => intro st; simp [ocaWalkBranches, processedBranches]
  | cons b rest ih =>
    intro st
    by_cases hp : env.repoExists (ocaRepoUrl repo) b
    · simp only [ocaWalkBranches, hp, Bool.not_true, Bool.false_eq_true, if_false]
      rw [ih]
      show (m ∈ (List.foldl _ st modules).analysis.sin ∨ _) ↔ _
      rw [ocaLoop_sin]
      have hne : (m ∈ namesOf modules ∧
          m ∉ (log_repo_modules_oca env repo b modules).2 ∧
          migDir env repo b m = false)
          ↔ (m ∈ namesOf modules ∧ presentOca env repo b m = true ∧
              migDir env repo b m = false) := by
        constructor
        · rintro ⟨h1, h2, h3⟩
          refine ⟨h1, ?_, h3⟩
          by_contra hpres
          exact h2 ((mem_no_encontrados_oca env repo b modules m).2
            ⟨h1, by simpa using hpres⟩)
        · rintro ⟨h1, h2, h3⟩
          refine ⟨h1, fun hmem => ?_, h3⟩
          have := (mem_no_encontrados_oca env repo b modules m).1 hmem
          rw [this.2] at h2
          exact Bool.false_ne_true h2
      rw [hne]
      simp only [processedBranches, hp, if_true, List.mem_cons]
      constructor
      · rintro ((hst | hb) | ⟨v, hv, hprop⟩)
        · exact Or.inl hst
        · exact Or.inr ⟨b, Or.inl rfl, hb⟩
        · exact Or.inr ⟨v, Or.inr hv, hprop⟩
      · rintro (hst | ⟨v, (rfl | hv), hprop⟩)
        · exact Or.inl (Or.inl hst)
        · exact Or.inl (Or.inr hprop)
        · exact Or.inr ⟨v, hv, hprop⟩
    · simp only [ocaWalkBranches, Bool.not_eq_true] at hp ⊢
      rw [hp]
      simp only [Bool.not_false, if_true, processedBranches, hp, Bool.false_eq_true, if_false]
      rw [(ocaErrorBlock_classif repo b modules st).2.2]
      simp

theorem ocaWalk_err (env : Env) (args : Args) (repo : String) (modules : List ModEntry) :
    ∀ bs : List String, ∀ st : OcaState,
      (ocaWalkBranches env args repo modules bs st).analysis.errores
        = st.analysis.errores ++
          (match failedBranch env (ocaRepoUrl repo) bs with
            | some fb => modules.map (fun e => errString e.1 fb)
            | none => []) := by
  intro bs
  induction bs with
  | nil => intro st; simp [ocaWalkBranches, failedBranch]
  | cons b rest ih =>
    intro st
    by_cases hp : env.repoExists (ocaRepoUrl repo) b
    · simp only [ocaWalkBranches, hp, Bool.not_true, Bool.false_eq_true, if_false]
      rw [ih]
      show (List.foldl _ st modules).analysis.errores ++ _ = _
      rw [ocaLoop_err]
      simp only [failedBranch, hp, if_true]
    · simp only [ocaWalkBranches, Bool.not_eq_true] at hp ⊢
      rw [hp]
      simp only [Bool.not_false, if_true, failedBranch, hp, Bool.false_eq_true, if_false]
      exact ocaErrorBlock_err repo b modules st

theorem odooWalk_con (env : Env) (args : Args) (repo : String) (modules : List ModEntry)
    (m : String) :
    ∀ bs : List String, ∀ st : OdooState,
      lookupList (odooWalkBranches env args repo modules bs st).analysis.con_migrations m
        = lookupList st.analysis.con_migrations m ++
          (processedBranches env (odooRepoUrl modules) bs).flatMap
            (fun b => if conCondOdoo env repo modules m b then
              List.replicate ((namesOf modules).count m) b
            else []) := by
  intro bs
  induction bs with
  | nil => intro st; simp [odooWalkBranches, processedBranches]
  | cons b rest ih =>
    intro st
    by_cases hp : env.repoExists (odooRepoUrl modules) b
    · simp only [odooWalkBranches, hp, Bool.not_true, Bool.false_eq_true, if_false]
      rw [ih]
      show lookupList (List.foldl _ st modules).analysis.con_migrations m ++ _ = _
      rw [odooLoop_con]
      simp only [processedBranches, hp, if_true, List.flatMap_cons, conCondOdoo,
        List.append_assoc]
    · simp only [odooWalkBranches, Bool.not_eq_true] at hp ⊢
      rw [hp]
      simp only [Bool.not_false, if_true, processedBranches, hp, Bool.false_eq_true, if_false,
        List.flatMap_nil, List.append_nil]
      exact congrArg (fun d => lookupList d m)
        (odooErrorBlock_classif (odooRepoUrl modules) b modules st).1

theorem odooWalk_nf (env : Env) (args : Args) (repo : String) (modules : List ModEntry)
    (m : String) :
    ∀ bs : List String, ∀ st : OdooState,
      lookupList (odooWalkBranches env args repo modules bs st).analysis.no_encontrados m
        = lookupList st.analysis.no_encontrados m ++
          (processedBranches env (odooRepoUrl modules) bs).flatMap
            (fun b => if nfCondOdoo env repo modules m b then
              List.replicate ((namesOf modules).count m) b
            else []) := by
  intro bs
  induction bs with
  | nil => intro st; simp [odooWalkBranches, processedBranches]
  | cons b rest ih =>
    intro st
    by_cases hp : env.repoExists (odooRepoUrl modules) b
    · simp only [odooWalkBranches, hp, Bool.not_true, Bool.false_eq_true, if_false]
      rw [ih]
      show lookupList (List.foldl _ st modules).analysis.no_encontrados m ++ _ = _
      rw [odooLoop_nf]
      simp only [processedBranches, hp, if_true, List.flatMap_cons, nfCondOdoo,
        List.append_assoc]
    · simp only [odooWalkBranches, Bool.not_eq_true] at hp ⊢
      rw [hp]
      simp only [Bool.not_false, if_true, processedBranches, hp, Bool.false_eq_true, if_false,
        List.flatMap_nil, List.append_nil]
      exact congrArg (fun d => lookupList d m)
        (odooErrorBlock_classif (odooRepoUrl modules) b modules st).2.1

theorem odooWalk_sin (env : Env) (args : Args) (repo : String) (modules : List ModEntry)
    (m : String) :
    ∀ bs : List String, ∀ st : OdooState,
      m ∈ (odooWalkBranches env args repo modules bs st).analysis.sin_migrations
        ↔ m ∈ st.analysis.sin_migrations ∨
          ∃ b ∈ processedBranches env (odooRepoUrl modules) bs,
            m ∈ namesOf modules ∧ presentOdoo env repo b m = true ∧
              migDir env repo b m = false := by
  intro bs
  induction bs with
  | nil => intro st; simp [odooWalkBranches, processedBranches]
  | cons b rest ih =>
    intro st
    by_cases hp : env.repoExists (odooRepoUrl modules) b
    · simp only [odooWalkBranches, hp, Bool.not_true, Bool.false_eq_true, if_false]
      rw [ih]
      show (m ∈ (List.foldl _ st modules).analysis.sin_migrations ∨ _) ↔ _
      rw [odooLoop_sin]
      have hne : (m ∈ namesOf modules ∧
          m ∉ (log_repo_modules_odoo env repo b modules).2 ∧
          migDir env repo b m = false)
          ↔ (m ∈ namesOf modules ∧ presentOdoo env repo b m = true ∧
              migDir env repo b m = false) := by
        constructor
        · rintro ⟨h1, h2, h3⟩
          refine ⟨h1, ?_, h3⟩
          by_contra hpres
          exact h2 ((mem_no_encontrados_odoo env repo b modules m).2
            ⟨h1, by simpa using hpres⟩)
        · rintro ⟨h1, h2, h3⟩
          refine ⟨h1, fun hmem => ?_, h3⟩
          have := (mem_no_encontrados_odoo env repo b modules m).1 hmem
          rw [this.2] at h2
          exact Bool.false_ne_true h2
      rw [hne]
      simp only [processedBranches, hp, if_true, List.mem_cons]
      constructor
      · rintro ((hst | hb) | ⟨v, hv, hprop⟩)
        · exact Or.inl hst
        · exact Or.inr ⟨b, Or.inl rfl, hb⟩
        · exact Or.inr ⟨v, Or.inr hv, hprop⟩
      · rintro (hst | ⟨v, (rfl | hv), hprop⟩)
        · exact Or.inl (Or.inl hst)
        · exact Or.inl (Or.inr hprop)
        · exact Or.inr ⟨v, hv, hprop⟩
    · simp only [odooWalkBranches, Bool.not_eq_true] at hp ⊢
      rw [hp]
      simp only [Bool.not_false, if_true, processedBranches, hp, Bool.false_eq_true, if_false]
      rw [(odooErrorBlock_classif (odooRepoUrl modules) b modules st).2.2]
      simp

theorem odooWalk_err (env : Env) (args : Args) (repo : String) (modules : List ModEntry) :
    ∀ bs : List String, ∀ st : OdooState,
      (odooWalkBranches env args repo modules bs st).analysis.errores
        = st.analysis.errores ++
          (match failedBranch env (odooRepoUrl modules) bs with
            | some fb => modules.map (fun e => errString e.1 fb)
            | none => []) := by
  intro bs
  induction bs with
  | nil => intro st; simp [odooWalkBranches, failedBranch]
  | cons b rest ih =>
    intro st
    by_cases hp : env.repoExists (odooRepoUrl modules) b
    · simp only [odooWalkBranches, hp, Bool.not_true, Bool.false_eq_true, if_false]
      rw [ih]
      show (List.foldl _ st modules).analysis.errores ++ _ = _
      rw [odooLoop_err]
      simp only [failedBranch, hp, if_true]
    · simp only [odooWalkBranches, Bool.not_eq_true] at hp ⊢
      rw [hp]
      simp only [Bool.not_false, if_true, failedBranch, hp, Bool.false_eq_true, if_false]
      exact odooErrorBlock_err (odooRepoUrl modules) b modules st

theorem odooWalk_csv (env : Env) (args : Args) (repo : String) (modules : List ModEntry) :
    ∀ bs : List String, ∀ st : OdooState,
      (odooWalkBranches env args repo modules bs st).csv_errors
        = st.csv_errors ++
          (match failedBranch env (odooRepoUrl modules) bs with
            | some _ => modules.map (fun e => (e.2.2, [e.1, odooRepoUrl modules]))
            | none => []) := by
  intro bs
  induction bs with
  | nil => intro st; simp [odooWalkBranches, failedBranch]
  | cons b rest ih =>
    intro st
    by_cases hp : env.repoExists (odooRepoUrl modules) b
    · simp only [odooWalkBranches, hp, Bool.not_true, Bool.false_eq_true, if_false]
      rw [ih]
      show (List.foldl _ st modules).csv_errors ++ _ = _
      rw [odooLoop_csv]
      simp only [failedBranch, hp, if_true]
    · simp only [odooWalkBranches, Bool.not_eq_true] at hp ⊢
      rw [hp]
      simp only [Bool.not_false, if_true, failedBranch, hp, Bool.false_eq_true, if_false]
      exact odooErrorBlock_csv (odooRepoUrl modules) b modules st

theorem mem_flatMap_cond (P : List String) (cond : String → Bool) (cnt : Nat) (v : String) :
    (v ∈ P.flatMap (fun b => if cond b then List.replicate cnt b else []))
      ↔ v ∈ P ∧ cond v = true ∧ 0 < cnt := by
  simp only [List.mem_flatMap]
  constructor
  · rintro ⟨b, hb, hv⟩
    by_cases hc : cond b
    · rw [if_pos hc] at hv
      obtain ⟨hcnt, rfl⟩ := List.mem_replicate.1 hv
      exact ⟨hb, hc, Nat.pos_of_ne_zero hcnt⟩
    · rw [if_neg hc] at hv
      simp at hv
  · rintro ⟨hv, hc, hcnt⟩
    refine ⟨v, hv, ?_⟩
    rw [if_pos hc]
    exact List.mem_replicate.2 ⟨Nat.pos_iff_ne_zero.1 hcnt, rfl⟩

theorem ocaReposLoop_resumen (env : Env) (args : Args) (branches : List String) :
    ∀ (rd : List (String × List ModEntry)) (st : OcaState),
      (ocaReposLoop env args branches rd st).1
        = rd.map (fun p => (p.1, ocaRepoAnalysis env args p.1 p.2 branches)) := by
  intro rd
  induction rd with
  | nil => intro st; rfl
  | cons p rest ih =>
    intro st
    obtain ⟨repo, modules⟩ := p
    show ((repo,
        (ocaWalkBranches env args repo modules branches { st with analysis := {} }).analysis) ::
        (ocaReposLoop env args branches rest _).1) = _
    rw [ih, ocaWalk_analysis_congr env args repo modules branches
      { st with analysis := {} } {} rfl]
    rfl

theorem analyze_repos_oca_resumen (env : Env) (args : Args)
    (rd : List (String × List ModEntry)) :
    (analyze_repos_oca env args rd).resumen
      = rd.map (fun p =>
          (p.1, ocaRepoAnalysis env args p.1 p.2 (mkBranches args.start_v args.end_v))) := by
  unfold analyze_repos_oca
  exact ocaReposLoop_resumen env args (mkBranches args.start_v args.end_v) rd {}

theorem odooReposLoop_resumen (env : Env) (args : Args) (branches : List String) :
    ∀ (rd : List (String × List ModEntry)) (st : OdooState),
      (odooReposLoop env args branches rd st).1
        = rd.map (fun p => (p.1, odooRepoAnalysis env args p.1 p.2 branches)) := by
  intro rd
  induction rd with
  | nil => intro st; rfl
  | cons p rest ih =>
    intro st
    obtain ⟨repo, modules⟩ := p
    show ((repo,
        (odooWalkBranches env args repo modules branches { st with analysis := {} }).analysis) ::
        (odooReposLoop env args branches rest _).1) = _
    rw [ih, odooWalk_analysis_congr env args repo modules branches
      { st with analysis := {} } { st with analysis := {}, csv_errors := [], captures := [] }
      rfl]
    rfl

theorem analyze_repos_odoo_resumen (env : Env) (args : Args)
    (rd : List (String × List ModEntry)) (ce : List (Nat × List String)) :
    (analyze_repos_odoo env args rd ce).resumen
      = rd.map (fun p =>
          (p.1, odooRepoAnalysis env args p.1 p.2 (mkBranches args.start_v args.end_v))) := by
  unfold analyze_repos_odoo
  exact odooReposLoop_resumen env args (mkBranches args.start_v args.end_v) rd
    { csv_errors := ce }

theorem ocaRepoAnalysis_con_mem (env : Env) (args : Args) (repo : String)
    (modules : List ModEntry) (branches : List String) (m v : String) :
    v ∈ lookupList (ocaRepoAnalysis env args repo modules branches).con_migrations m
      ↔ v ∈ processedBranches env (ocaRepoUrl repo) branches ∧ m ∈ namesOf modules ∧
        presentOca env repo v m = true ∧ migDir env repo v m = true := by
  unfold ocaRepoAnalysis
  rw [ocaWalk_con]
  show v ∈ lookupList ([] : List (String × List String)) m ++ _ ↔ _
  rw [show lookupList ([] : List (String × List String)) m = [] from rfl, List.nil_append,
    mem_flatMap_cond]
  constructor
  · rintro ⟨hP, hcond, hcnt⟩
    have hm : m ∈ namesOf modules := by
      by_contra hm
      rw [List.count_eq_zero_of_not_mem hm] at hcnt
      exact Nat.lt_irrefl 0 hcnt
    rw [conCondOca, Bool.and_eq_true] at hcond
    obtain ⟨hnf, hmig⟩ := hcond
    refine ⟨hP, hm, ?_, hmig⟩
    rw [Bool.not_eq_true'] at hnf
    by_contra hpres
    rw [Bool.not_eq_true] at hpres
    have hmm : m ∈ (log_repo_modules_oca env repo v modules).2 :=
      (mem_no_encontrados_oca env repo v modules m).2 ⟨hm, hpres⟩
    have hc : (log_repo_modules_oca env repo v modules).2.contains m = true := by
      simp only [List.elem_eq_mem, decide_eq_true_eq]
      exact hmm
    rw [hnf] at hc
    exact Bool.false_ne_true hc
  · rintro ⟨hP, hm, hpres, hmig⟩
    refine ⟨hP, ?_, List.count_pos_iff.2 hm⟩
    rw [conCondOca, Bool.and_eq_true]
    refine ⟨?_, hmig⟩
    rw [Bool.not_eq_true']
    rw [← Bool.not_eq_true]
    intro hc
    have := (mem_no_encontrados_oca env repo v modules m).1 (by simpa using hc)
    rw [hpres] at this
    simp at this

theorem ocaRepoAnalysis_nf_mem (env : Env) (args : Args) (repo : String)
    (modules : List ModEntry) (branches : List String) (m v : String) :
    v ∈ lookupList (ocaRepoAnalysis env args repo modules branches).no_encontrados m
      ↔ v ∈ processedBranches env (ocaRepoUrl repo) branches ∧ m ∈ namesOf modules ∧
        presentOca env repo v m = false := by
  unfold ocaRepoAnalysis
  rw [ocaWalk_nf]
  show v ∈ lookupList ([] : List (String × List String)) m ++ _ ↔ _
  rw [show lookupList ([] : List (String × List String)) m = [] from rfl, List.nil_append,
    mem_flatMap_cond]
  constructor
  · rintro ⟨hP, hcond, hcnt⟩
    have hmm : m ∈ (log_repo_modules_oca env repo v modules).2 := by
      have := hcond
      rw [nfCondOca] at this
      simpa using this
    obtain ⟨hm, hpres⟩ := (mem_no_encontrados_oca env repo v modules m).1 hmm
    exact ⟨hP, hm, hpres⟩
  · rintro ⟨hP, hm, hpres⟩
    refine ⟨hP, ?_, List.count_pos_iff.2 hm⟩
    rw [nfCondOca]
    simp only [List.elem_eq_mem, decide_eq_true_eq]
    exact (mem_no_encontrados_oca env repo v modules m).2 ⟨hm, hpres⟩

theorem ocaRepoAnalysis_sin_mem (env : Env) (args : Args) (repo : String)
    (modules : List ModEntry) (branches : List String) (m : String) :
    m ∈ (ocaRepoAnalysis env args repo modules branches).sin
      ↔ ∃ v, sinViaOca env repo modules branches m v := by
  unfold ocaRepoAnalysis
  rw [ocaWalk_sin]
  show (m ∈ ([] : List String) ∨ _) ↔ _
  simp only [List.not_mem_nil, false_or, sinViaOca]
  constructor
  · rintro ⟨b, hb, h1, h2, h3⟩
    exact ⟨b, hb, h1, h2, h3⟩
  · rintro ⟨b, hb, h1, h2, h3⟩
    exact ⟨b, hb, h1, h2, h3⟩

theorem ocaRepoAnalysis_err (env : Env) (args : Args) (repo : String)
    (modules : List ModEntry) (branches : List String) :
    (ocaRepoAnalysis env args repo modules branches).errores
      = (match failedBranch env (ocaRepoUrl repo) branches with
          | some fb => modules.map (fun e => errString e.1 fb)
          | none => []) := by
  unfold ocaRepoAnalysis
  rw [ocaWalk_err]
  show ([] : List String) ++ _ = _
  rw [List.nil_append]

theorem odooRepoAnalysis_con_mem (env : Env) (args : Args) (repo : String)
    (modules : List ModEntry) (branches : List String) (m v : String) :
    v ∈ lookupList (odooRepoAnalysis env args repo modules branches).con_migrations m
      ↔ v ∈ processedBranches env (odooRepoUrl modules) branches ∧ m ∈ namesOf modules ∧
        presentOdoo env repo v m = true ∧ migDir env repo v m = true := by
  unfold odooRepoAnalysis
  rw [odooWalk_con]
  show v ∈ lookupList ([] : List (String × List String)) m ++ _ ↔ _
  rw [show lookupList ([] : List (String × List String)) m = [] from rfl, List.nil_append,
    mem_flatMap_cond]
  constructor
  · rintro ⟨hP, hcond, hcnt⟩
    have hm : m ∈ namesOf modules := by
      by_contra hm
      rw [List.count_eq_zero_of_not_mem hm] at hcnt
      exact Nat.lt_irrefl 0 hcnt
    rw [conCondOdoo, Bool.and_eq_true] at hcond
    obtain ⟨hnf, hmig⟩ := hcond
    refine ⟨hP, hm, ?_, hmig⟩
    rw [Bool.not_eq_true'] at hnf
    by_contra hpres
    rw [Bool.not_eq_true] at hpres
    have hmm : m ∈ (log_repo_modules_odoo env repo v modules).2 :=
      (mem_no_encontrados_odoo env repo v modules m).2 ⟨hm, hpres⟩
    have hc : (log_repo_modules_odoo env repo v modules).2.contains m = true := by
      simp only [List.elem_eq_mem, decide_eq_true_eq]
      exact hmm
    rw [hnf] at hc
    exact Bool.false_ne_true hc
  · rintro ⟨hP, hm, hpres, hmig⟩
    refine ⟨hP, ?_, List.count_pos_iff.2 hm⟩
    rw [conCondOdoo, Bool.and_eq_true]
    refine ⟨?_, hmig⟩
    rw [Bool.not_eq_true']
    rw [← Bool.not_eq_true]
    intro hc
    have := (mem_no_encontrados_odoo env repo v modules m).1 (by simpa using hc)
    rw [hpres] at this
    simp at this

theorem odooRepoAnalysis_nf_mem (env : Env) (args : Args) (repo : String)
    (modules : List ModEntry) (branches : List String) (m v : String) :
    v ∈ lookupList (odooRepoAnalysis env args repo modules branches).no_encontrados m
      ↔ v ∈ processedBranches env (odooRepoUrl modules) branches ∧ m ∈ namesOf modules ∧
        presentOdoo env repo v m = false := by
  unfold odooRepoAnalysis
  rw [odooWalk_nf]
  show v ∈ lookupList ([] : List (String × List String)) m ++ _ ↔ _
  rw [show lookupList ([] : List (String × List String)) m = [] from rfl, List.nil_append,
    mem_flatMap_cond]
  constructor
  · rintro ⟨hP, hcond, hcnt⟩
    have hmm : m ∈ (log_repo_modules_odoo env repo v modules).2 := by
      have := hcond
      rw [nfCondOdoo] at this
      simpa using this
    obtain ⟨hm, hpres⟩ := (mem_no_encontrados_odoo env repo v modules m).1 hmm
    exact ⟨hP, hm, hpres⟩
  · rintro ⟨hP, hm, hpres⟩
    refine ⟨hP, ?_, List.count_pos_iff.2 hm⟩
    rw [nfCondOdoo]
    simp only [List.elem_eq_mem, decide_eq_true_eq]
    exact (mem_no_encontrados_odoo env repo v modules m).2 ⟨hm, hpres⟩

theorem odooRepoAnalysis_sin_mem (env : Env) (args : Args) (repo : String)
    (modules : List ModEntry) (branches : List String) (m : String) :
    m ∈ (odooRepoAnalysis env args repo modules branches).sin_migrations
      ↔ ∃ v, sinViaOdoo env repo modules branches m v := by
  unfold odooRepoAnalysis
  rw [odooWalk_sin]
  show (m ∈ ([] : List String) ∨ _) ↔ _
  simp only [List.not_mem_nil, false_or, sinViaOdoo]
  constructor
  · rintro ⟨b, hb, h1, h2, h3⟩
    exact ⟨b, hb, h1, h2, h3⟩
  · rintro ⟨b, hb, h1, h2, h3⟩
    exact ⟨b, hb, h1, h2, h3⟩

theorem odooRepoAnalysis_err (env : Env) (args : Args) (repo : String)
    (modules : List ModEntry) (branches : List String) :
    (odooRepoAnalysis env args repo modules branches).errores
      = (match failedBranch env (odooRepoUrl modules) branches with
          | some fb => modules.map (fun e => errString e.1 fb)
          | none => []) := by
  unfold odooRepoAnalysis
  rw [odooWalk_err]
  show ([] : List String) ++ _ = _
  rw [List.nil_append]

/-! ## Claims -/

/-- C8 (confirmed): for every pair of major-version bounds with
`start ≤ end`, `branches` is exactly the list of labels `"<major>.0"` for
each major from `start` to `end` inclusive, in ascending order (element `i`
is the label of `start + i`); in particular `start = 14`, `end = 17` yields
exactly `["14.0", "15.0", "16.0", "17.0"]`. -/
theorem c8_range_construction (s e : Nat) (h : s ≤ e) :
    (mkBranches s e).length = e - s + 1 ∧
      (∀ i (hi : i < (mkBranches s e).length),
        (mkBranches s e)[i] = toString (s + i) ++ ".0") ∧
      mkBranches 14 17 = ["14.0", "15.0", "16.0", "17.0"] := by
  refine ⟨?_, ?_, rfl⟩
  · simp only [mkBranches, List.length_map, List.length_range']
    omega
  · intro i hi
    simp [mkBranches]

/-- Witness for C8 at the concrete bounds 14 and 17. -/
theorem c8_range_construction_witness :
    (mkBranches 14 17).length = 4 ∧ mkBranches 14 17 = ["14.0", "15.0", "16.0", "17.0"] :=
  ⟨(c8_range_construction 14 17 (by decide)).1,
    (c8_range_construction 14 17 (by decide)).2.2⟩

theorem ocaReposLoop_no_branches (env : Env) (args : Args) :
    ∀ rd : List (String × List ModEntry),
      ocaReposLoop env args [] rd ({} : OcaState)
        = (rd.map (fun p => (p.1, ({} : OcaAnalysis))), ({} : OcaState)) := by
  intro rd
  induction rd with
  | nil => rfl
  | cons p rest ih =>
    obtain ⟨repo, modules⟩ := p
    show ((repo, ({} : OcaAnalysis)) :: (ocaReposLoop env args [] rest {}).1,
      (ocaReposLoop env args [] rest {}).2) = _
    rw [ih]
    rfl

theorem odooReposLoop_no_branches (env : Env) (args : Args) (ce : List (Nat × List String)) :
    ∀ rd : List (String × List ModEntry),
      odooReposLoop env args [] rd { csv_errors := ce }
        = (rd.map (fun p => (p.1, ({} : OdooAnalysis))),
          ({ csv_errors := ce } : OdooState)) := by
  intro rd
  induction rd with
  | nil => rfl
  | cons p rest ih =>
    obtain ⟨repo, modules⟩ := p
    show ((repo, ({} : OdooAnalysis)) :: (odooReposLoop env args [] rest { csv_errors := ce }).1,
      (odooReposLoop env args [] rest { csv_errors := ce }).2) = _
    rw [ih]
    rfl

/-- C3 (counterexample): with bounds `start = 17 > end = 14` the program does
not fail at all: the computed range is empty, the walk completes, and a
(fully empty) `RepositoryAnalysis` IS produced for the repository and handed
to the renderers — there is no `InvalidRangeError` anywhere in the code. -/
theorem c3_counterexample :
    mkBranches 17 14 = [] ∧
      (analyze_repos_oca envUp ⟨17, 14, false, false⟩ [("r", [("m", "u", 1)])]).resumen
        = [("r", ({} : OcaAnalysis))] ∧
      (analyze_repos_odoo envUp ⟨17, 14, false, false⟩ [("r", [("m", "u", 1)])]
          [(5, ["bad"])]).resumen
        = [("r", ({} : OdooAnalysis))] ∧
      (analyze_repos_odoo envUp ⟨17, 14, false, false⟩ [("r", [("m", "u", 1)])]
          [(5, ["bad"])]).csv_errors
        = [(5, ["bad"])] :=
  ⟨rfl, rfl, rfl, rfl⟩

/-- C3 (amended): when `start > end` the version range is empty and nothing
fails: both variants' walks run over zero versions, produce an empty
`RepositoryAnalysis` for every repository and leave every other accumulator
(including the parse-error list) untouched, after which the reports are
rendered from these empty results.  No `InvalidRangeError` exists. -/
theorem c3_invalid_range_not_fatal (env : Env) (s e : Nat) (sv dr : Bool)
    (rd : List (String × List ModEntry)) (ce : List (Nat × List String)) (h : e < s) :
    mkBranches s e = [] ∧
      analyze_repos_oca env ⟨s, e, sv, dr⟩ rd
        = { resumen := rd.map (fun p => (p.1, ({} : OcaAnalysis))), migrar_global := [],
            rows_full := [], rows_resume := [], captures := [] } ∧
      analyze_repos_odoo env ⟨s, e, sv, dr⟩ rd ce
        = { resumen := rd.map (fun p => (p.1, ({} : OdooAnalysis))), csv_errors := ce,
            captures := [] } := by
  have hb : mkBranches s e = [] := by
    have : e + 1 - s = 0 := by omega
    simp [mkBranches, this]
  refine ⟨hb, ?_, ?_⟩
  · simp only [analyze_repos_oca]
    rw [hb, ocaReposLoop_no_branches]
  · simp only [analyze_repos_odoo]
    rw [hb, odooReposLoop_no_branches]

/-- Witness for C3's amended theorem at concrete bounds 17 and 14. -/
theorem c3_invalid_range_not_fatal_witness :
    mkBranches 17 14 = [] ∧
      analyze_repos_oca envDown ⟨17, 14, true, true⟩ [("r", [("m", "u", 1)])]
        = { resumen := [("r", ({} : OcaAnalysis))], migrar_global := [], rows_full := [],
            rows_resume := [], captures := [] } ∧
      analyze_repos_odoo envDown ⟨17, 14, true, true⟩ [("r", [("m", "u", 1)])] []
        = { resumen := [("r", ({} : OdooAnalysis))], csv_errors := [], captures := [] } :=
  c3_invalid_range_not_fatal envDown 17 14 true true [("r", [("m", "u", 1)])] []
    (by decide)

/-- C2 (counterexample): repository unavailable at the first version of the
3-version range 14.0–16.0 with two catalogue modules: both variants record
exactly 2 `errores` entries (one per module, tagging only `14.0`), not
`3 × 2 = 6`. -/
theorem c2_counterexample :
    (ocaRepoAnalysis envDown ⟨14, 16, false, false⟩ "r" [("m1", "u", 1), ("m2", "u", 2)]
        (mkBranches 14 16)).errores
      = ["m1 @ 14.0 (repo no encontrado)", "m2 @ 14.0 (repo no encontrado)"] ∧
    ¬((ocaRepoAnalysis envDown ⟨14, 16, false, false⟩ "r" [("m1", "u", 1), ("m2", "u", 2)]
        (mkBranches 14 16)).errores.length = 3 * 2) ∧
    (odooRepoAnalysis envDown ⟨14, 16, false, false⟩ "r" [("m1", "u", 1), ("m2", "u", 2)]
        (mkBranches 14 16)).errores
      = ["m1 @ 14.0 (repo no encontrado)", "m2 @ 14.0 (repo no encontrado)"] ∧
    ¬((odooRepoAnalysis envDown ⟨14, 16, false, false⟩ "r" [("m1", "u", 1), ("m2", "u", 2)]
        (mkBranches 14 16)).errores.length = 3 * 2) :=
  ⟨rfl, by decide, rfl, by decide⟩

/-- C2 (amended): when the repository is unavailable at the first version of
the range, both variants record exactly one `errores` entry per catalogue
module entry — `modules.length` entries in total, every one tagging the first
version — and the later versions of the range contribute no entries at all
(the walk breaks before reaching them). -/
theorem c2_short_circuit_errors (env : Env) (args : Args) (repo : String)
    (modules : List ModEntry) (b : String) (bs : List String)
    (hoca : env.repoExists (ocaRepoUrl repo) b = false)
    (hodoo : env.repoExists (odooRepoUrl modules) b = false) :
    (ocaRepoAnalysis env args repo modules (b :: bs)).errores
        = modules.map (fun e => errString e.1 b) ∧
      (ocaRepoAnalysis env args repo modules (b :: bs)).errores.length = modules.length ∧
      (odooRepoAnalysis env args repo modules (b :: bs)).errores
        = modules.map (fun e => errString e.1 b) ∧
      (odooRepoAnalysis env args repo modules (b :: bs)).errores.length
        = modules.length := by
  have hf : failedBranch env (ocaRepoUrl repo) (b :: bs) = some b := by
    simp [failedBranch, hoca]
  have hf' : failedBranch env (odooRepoUrl modules) (b :: bs) = some b := by
    simp [failedBranch, hodoo]
  have e1 : (ocaRepoAnalysis env args repo modules (b :: bs)).errores
      = modules.map (fun e => errString e.1 b) := by
    rw [ocaRepoAnalysis_err, hf]
  have e2 : (odooRepoAnalysis env args repo modules (b :: bs)).errores
      = modules.map (fun e => errString e.1 b) := by
    rw [odooRepoAnalysis_err, hf']
  refine ⟨e1, ?_, e2, ?_⟩
  · rw [e1, List.length_map]
  · rw [e2, List.length_map]

/-- Witness for C2's amended theorem: the 3-version range 14.0–16.0 with an
unavailable repository and two modules yields exactly two error entries. -/
theorem c2_short_circuit_errors_witness :
    (ocaRepoAnalysis envDown ⟨14, 16, false, false⟩ "r" [("m1", "u", 1), ("m2", "u", 2)]
        ("14.0" :: ["15.0", "16.0"])).errores
        = [("m1", "u", 1), ("m2", "u", 2)].map (fun e => errString e.1 "14.0") ∧
      (ocaRepoAnalysis envDown ⟨14, 16, false, false⟩ "r" [("m1", "u", 1), ("m2", "u", 2)]
        ("14.0" :: ["15.0", "16.0"])).errores.length = 2 ∧
      (odooRepoAnalysis envDown ⟨14, 16, false, false⟩ "r" [("m1", "u", 1), ("m2", "u", 2)]
        ("14.0" :: ["15.0", "16.0"])).errores
        = [("m1", "u", 1), ("m2", "u", 2)].map (fun e => errString e.1 "14.0") ∧
      (odooRepoAnalysis envDown ⟨14, 16, false, false⟩ "r" [("m1", "u", 1), ("m2", "u", 2)]
        ("14.0" :: ["15.0", "16.0"])).errores.length = 2 :=
  c2_short_circuit_errors envDown ⟨14, 16, false, false⟩ "r"
    [("m1", "u", 1), ("m2", "u", 2)] "14.0" ["15.0", "16.0"] rfl rfl

theorem processedBranches_append_failed (env : Env) (url : String) (vi : String)
    (bs₂ : List String) (h : env.repoExists url vi = false) :
    ∀ bs₁ : List String,
      processedBranches env url (bs₁ ++ vi :: bs₂) = processedBranches env url bs₁ := by
  intro bs₁
  induction bs₁ with
  | nil => simp [processedBranches, h]
  | cons b rest ih =>
    by_cases hb : env.repoExists url b
    · simp only [List.cons_append, processedBranches, hb, if_true]
      rw [show rest.append (vi :: bs₂) = rest ++ vi :: bs₂ from rfl, ih]
    · simp [processedBranches, hb]

theorem ocaWalk_break (env : Env) (args : Args) (repo : String)
    (modules : List ModEntry) (vi : String) (bs₂ : List String)
    (hoca : env.repoExists (ocaRepoUrl repo) vi = false) :
    ∀ (bs₁ : List String) (st : OcaState),
      ocaWalkBranches env args repo modules (bs₁ ++ vi :: bs₂) st
        = ocaWalkBranches env args repo modules (bs₁ ++ [vi]) st := by
  intro bs₁
  induction bs₁ with
  | nil => intro st; simp [ocaWalkBranches, hoca]
  | cons b rest ih =>
    intro st
    by_cases hb : env.repoExists (ocaRepoUrl repo) b
    · simp only [List.cons_append, ocaWalkBranches, hb, Bool.not_true,
        Bool.false_eq_true, if_false]
      exact ih _
    · simp only [List.cons_append, ocaWalkBranches, Bool.not_eq_true] at hb ⊢
      rw [hb]
      simp

theorem odooWalk_break (env : Env) (args : Args) (repo : String)
    (modules : List ModEntry) (vi : String) (bs₂ : List String)
    (hodoo : env.repoExists (odooRepoUrl modules) vi = false) :
    ∀ (bs₁ : List String) (st : OdooState),
      odooWalkBranches env args repo modules (bs₁ ++ vi :: bs₂) st
        = odooWalkBranches env args repo modules (bs₁ ++ [vi]) st := by
  intro bs₁
  induction bs₁ with
  | nil => intro st; simp [odooWalkBranches, hodoo]
  | cons b rest ih =>
    intro st
    by_cases hb : env.repoExists (odooRepoUrl modules) b
    · simp only [List.cons_append, odooWalkBranches, hb, Bool.not_true,
        Bool.false_eq_true, if_false]
      exact ih _
    · simp only [List.cons_append, odooWalkBranches, Bool.not_eq_true] at hb ⊢
      rw [hb]
      simp

/-- C7 (confirmed): once the existence probe fails at version `vi`, the walk
of either variant is exited there: the whole walk equals the walk of the
range truncated right after `vi`, so no module gains any entry in
`con_migrations` / `sin` / `no_encontrados` for any version after `vi` —
every version recorded in the two per-version buckets lies in the prefix
before `vi`, and every `sin` insertion stems from a version of that
prefix. -/
theorem c7_monotonic_short_circuit (env : Env) (args : Args) (repo : String)
    (modules : List ModEntry) (bs₁ : List String) (vi : String) (bs₂ : List String)
    (hoca : env.repoExists (ocaRepoUrl repo) vi = false)
    (hodoo : env.repoExists (odooRepoUrl modules) vi = false) :
    (∀ st : OcaState,
      ocaWalkBranches env args repo modules (bs₁ ++ vi :: bs₂) st
        = ocaWalkBranches env args repo modules (bs₁ ++ [vi]) st) ∧
    (∀ st : OdooState,
      odooWalkBranches env args repo modules (bs₁ ++ vi :: bs₂) st
        = odooWalkBranches env args repo modules (bs₁ ++ [vi]) st) ∧
    (∀ m v : String,
      (v ∈ lookupList (ocaRepoAnalysis env args repo modules
          (bs₁ ++ vi :: bs₂)).con_migrations m ∨
        v ∈ lookupList (ocaRepoAnalysis env args repo modules
          (bs₁ ++ vi :: bs₂)).no_encontrados m) → v ∈ bs₁) ∧
    (∀ m : String,
      m ∈ (ocaRepoAnalysis env args repo modules (bs₁ ++ vi :: bs₂)).sin →
        ∃ v ∈ bs₁, presentOca env repo v m = true ∧ migDir env repo v m = false) ∧
    (∀ m v : String,
      (v ∈ lookupList (odooRepoAnalysis env args repo modules
          (bs₁ ++ vi :: bs₂)).con_migrations m ∨
        v ∈ lookupList (odooRepoAnalysis env args repo modules
          (bs₁ ++ vi :: bs₂)).no_encontrados m) → v ∈ bs₁) ∧
    (∀ m : String,
      m ∈ (odooRepoAnalysis env args repo modules (bs₁ ++ vi :: bs₂)).sin_migrations →
        ∃ v ∈ bs₁, presentOdoo env repo v m = true ∧ migDir env repo v m = false) := by
  have hPo : processedBranches env (ocaRepoUrl repo) (bs₁ ++ vi :: bs₂)
      = processedBranches env (ocaRepoUrl repo) bs₁ :=
    processedBranches_append_failed env (ocaRepoUrl repo) vi bs₂ hoca bs₁
  have hPd : processedBranches env (odooRepoUrl modules) (bs₁ ++ vi :: bs₂)
      = processedBranches env (odooRepoUrl modules) bs₁ :=
    processedBranches_append_failed env (odooRepoUrl modules) vi bs₂ hodoo bs₁
  refine ⟨ocaWalk_break env args repo modules vi bs₂ hoca bs₁,
    odooWalk_break env args repo modules vi bs₂ hodoo bs₁, ?_, ?_, ?_, ?_⟩
  · intro m v hv
    have hvP : v ∈ processedBranches env (ocaRepoUrl repo) bs₁ := by
      rcases hv with hv | hv
      · have := (ocaRepoAnalysis_con_mem env args repo modules _ m v).1 hv
        rw [hPo] at this
        exact this.1
      · have := (ocaRepoAnalysis_nf_mem env args repo modules _ m v).1 hv
        rw [hPo] at this
        exact this.1
    exact (processedBranches_sublist env (ocaRepoUrl repo) bs₁).subset hvP
  · intro m hm
    obtain ⟨v, hv⟩ := (ocaRepoAnalysis_sin_mem env args repo modules _ m).1 hm
    rw [sinViaOca, hPo] at hv
    exact ⟨v, (processedBranches_sublist env (ocaRepoUrl repo) bs₁).subset hv.1,
      hv.2.2.1, hv.2.2.2⟩
  · intro m v hv
    have hvP : v ∈ processedBranches env (odooRepoUrl modules) bs₁ := by
      rcases hv with hv | hv
      · have := (odooRepoAnalysis_con_mem env args repo modules _ m v).1 hv
        rw [hPd] at this
        exact this.1
      · have := (odooRepoAnalysis_nf_mem env args repo modules _ m v).1 hv
        rw [hPd] at this
        exact this.1
    exact (processedBranches_sublist env (odooRepoUrl modules) bs₁).subset hvP
  · intro m hm
    obtain ⟨v, hv⟩ := (odooRepoAnalysis_sin_mem env args repo modules _ m).1 hm
    rw [sinViaOdoo, hPd] at hv
    exact ⟨v, (processedBranches_sublist env (odooRepoUrl modules) bs₁).subset hv.1,
      hv.2.2.1, hv.2.2.2⟩

/-- Witness for C7 at a concrete snapshot state whose probe fails at 16.0:
the walk over 14.0–17.0 equals the walk truncated after 16.0. -/
theorem c7_monotonic_short_circuit_witness :
    ocaWalkBranches envA ⟨14, 17, false, false⟩ "r" [("m1", "u", 1)]
        (["14.0", "15.0"] ++ "16.0" :: ["17.0"]) {}
      = ocaWalkBranches envA ⟨14, 17, false, false⟩ "r" [("m1", "u", 1)]
        (["14.0", "15.0"] ++ ["16.0"]) {} :=
  (c7_monotonic_short_circuit envA ⟨14, 17, false, false⟩ "r" [("m1", "u", 1)]
    ["14.0", "15.0"] "16.0" ["17.0"] (by decide) (by decide)).1 {}


theorem bool_clash {b : Bool} (h : b = true) (h' : b = false) : False := by
  rw [h] at h'
  exact Bool.noConfusion h'

theorem sinViaOca_def (env : Env) (repo : String) (modules : List ModEntry)
    (branches : List String) (m v : String) :
    sinViaOca env repo modules branches m v ↔
      v ∈ processedBranches env (ocaRepoUrl repo) branches ∧ m ∈ namesOf modules ∧
        presentOca env repo v m = true ∧ migDir env repo v m = false := by
  rw [sinViaOca, namesOf]

theorem sinViaOdoo_def (env : Env) (repo : String) (modules : List ModEntry)
    (branches : List String) (m v : String) :
    sinViaOdoo env repo modules branches m v ↔
      v ∈ processedBranches env (odooRepoUrl modules) branches ∧ m ∈ namesOf modules ∧
        presentOdoo env repo v m = true ∧ migDir env repo v m = false := by
  rw [sinViaOdoo, namesOf]

theorem errViaOca_def (env : Env) (repo : String) (modules : List ModEntry)
    (branches : List String) (m v : String) :
    errViaOca env repo modules branches m v ↔
      failedBranch env (ocaRepoUrl repo) branches = some v ∧ m ∈ namesOf modules := by
  rw [errViaOca, namesOf]

theorem errViaOdoo_def (env : Env) (modules : List ModEntry)
    (branches : List String) (m v : String) :
    errViaOdoo env modules branches m v ↔
      failedBranch env (odooRepoUrl modules) branches = some v ∧ m ∈ namesOf modules := by
  rw [errViaOdoo, namesOf]

/-- C1 (confirmed): mutual exclusion of classification, for both variants.
For every repository, catalogue module `m` and version `v`: no two of
{`con_migrations[m]` contains `v`, `m` added to the flat without-migrations
set via `v`, `no_encontrados[m]` contains `v`, an error recorded for
`(m, v)`} hold together; when the walk's existence probe confirmed the
repository at `v`, exactly one of the first three holds; and when the probe
confirmed it unavailable at `v`, `m` is in none of the first three for `v`
and its error string for `v` is in `errores`. -/
theorem c1_classification_exclusive (env : Env) (args : Args) (repo : String)
    (modules : List ModEntry) (branches : List String) (m v : String) :
    (¬(v ∈ lookupList (ocaRepoAnalysis env args repo modules branches).con_migrations m ∧
        v ∈ lookupList (ocaRepoAnalysis env args repo modules branches).no_encontrados m) ∧
      ¬(v ∈ lookupList (ocaRepoAnalysis env args repo modules branches).con_migrations m ∧
        sinViaOca env repo modules branches m v) ∧
      ¬(v ∈ lookupList (ocaRepoAnalysis env args repo modules branches).no_encontrados m ∧
        sinViaOca env repo modules branches m v) ∧
      ¬(errViaOca env repo modules branches m v ∧
        (v ∈ lookupList (ocaRepoAnalysis env args repo modules branches).con_migrations m ∨
          v ∈ lookupList (ocaRepoAnalysis env args repo modules branches).no_encontrados m ∨
          sinViaOca env repo modules branches m v)) ∧
      (v ∈ processedBranches env (ocaRepoUrl repo) branches → m ∈ namesOf modules →
        ((v ∈ lookupList (ocaRepoAnalysis env args repo modules branches).con_migrations m ∧
            v ∉ lookupList (ocaRepoAnalysis env args repo modules branches).no_encontrados m ∧
            ¬sinViaOca env repo modules branches m v) ∨
          (v ∉ lookupList (ocaRepoAnalysis env args repo modules branches).con_migrations m ∧
            v ∈ lookupList (ocaRepoAnalysis env args repo modules branches).no_encontrados m ∧
            ¬sinViaOca env repo modules branches m v) ∨
          (v ∉ lookupList (ocaRepoAnalysis env args repo modules branches).con_migrations m ∧
            v ∉ lookupList (ocaRepoAnalysis env args repo modules branches).no_encontrados m ∧
            sinViaOca env repo modules branches m v))) ∧
      (failedBranch env (ocaRepoUrl repo) branches = some v → m ∈ namesOf modules →
        (errString m v ∈ (ocaRepoAnalysis env args repo modules branches).errores ∧
          v ∉ lookupList (ocaRepoAnalysis env args repo modules branches).con_migrations m ∧
          v ∉ lookupList (ocaRepoAnalysis env args repo modules branches).no_encontrados m ∧
          ¬sinViaOca env repo modules branches m v))) ∧
    (¬(v ∈ lookupList (odooRepoAnalysis env args repo modules branches).con_migrations m ∧
        v ∈ lookupList (odooRepoAnalysis env args repo modules branches).no_encontrados m) ∧
      ¬(v ∈ lookupList (odooRepoAnalysis env args repo modules branches).con_migrations m ∧
        sinViaOdoo env repo modules branches m v) ∧
      ¬(v ∈ lookupList (odooRepoAnalysis env args repo modules branches).no_encontrados m ∧
        sinViaOdoo env repo modules branches m v) ∧
      ¬(errViaOdoo env modules branches m v ∧
        (v ∈ lookupList (odooRepoAnalysis env args repo modules branches).con_migrations m ∨
          v ∈ lookupList (odooRepoAnalysis env args repo modules branches).no_encontrados m ∨
          sinViaOdoo env repo modules branches m v)) ∧
      (v ∈ processedBranches env (odooRepoUrl modules) branches → m ∈ namesOf modules →
        ((v ∈ lookupList (odooRepoAnalysis env args repo modules branches).con_migrations m ∧
            v ∉ lookupList (odooRepoAnalysis env args repo modules branches).no_encontrados m ∧
            ¬sinViaOdoo env repo modules branches m v) ∨
          (v ∉ lookupList (odooRepoAnalysis env args repo modules branches).con_migrations m ∧
            v ∈ lookupList (odooRepoAnalysis env args repo modules branches).no_encontrados m ∧
            ¬sinViaOdoo env repo modules branches m v) ∨
          (v ∉ lookupList (odooRepoAnalysis env args repo modules branches).con_migrations m ∧
            v ∉ lookupList (odooRepoAnalysis env args repo modules branches).no_encontrados m ∧
            sinViaOdoo env repo modules branches m v))) ∧
      (failedBranch env (odooRepoUrl modules) branches = some v → m ∈ namesOf modules →
        (errString m v ∈ (odooRepoAnalysis env args repo modules branches).errores ∧
          v ∉ lookupList (odooRepoAnalysis env args repo modules branches).con_migrations m ∧
          v ∉ lookupList (odooRepoAnalysis env args repo modules branches).no_encontrados m ∧
          ¬sinViaOdoo env repo modules branches m v))) := by
  constructor
  · refine ⟨?_, ?_, ?_, ?_, ?_, ?_⟩
    · rintro ⟨h1, h2⟩
      have p1 := (ocaRepoAnalysis_con_mem env args repo modules branches m v).1 h1
      have p2 := (ocaRepoAnalysis_nf_mem env args repo modules branches m v).1 h2
      exact bool_clash p1.2.2.1 p2.2.2
    · rintro ⟨h1, h2⟩
      have p1 := (ocaRepoAnalysis_con_mem env args repo modules branches m v).1 h1
      rw [sinViaOca_def] at h2
      exact bool_clash p1.2.2.2 h2.2.2.2
    · rintro ⟨h1, h2⟩
      have p1 := (ocaRepoAnalysis_nf_mem env args repo modules branches m v).1 h1
      rw [sinViaOca_def] at h2
      exact bool_clash h2.2.2.1 p1.2.2
    · rintro ⟨he, hcl⟩
      rw [errViaOca_def] at he
      have hvfalse := failedBranch_spec env (ocaRepoUrl repo) branches v he.1
      have hvP : v ∈ processedBranches env (ocaRepoUrl repo) branches := by
        rcases hcl with h | h | h
        · exact ((ocaRepoAnalysis_con_mem env args repo modules branches m v).1 h).1
        · exact ((ocaRepoAnalysis_nf_mem env args repo modules branches m v).1 h).1
        · rw [sinViaOca_def] at h
          exact h.1
      exact bool_clash (mem_processedBranches env (ocaRepoUrl repo) branches v hvP) hvfalse
    · intro hP hm
      cases hpres : presentOca env repo v m with
      | true =>
        cases hmig : migDir env repo v m with
        | true =>
          refine Or.inl ⟨(ocaRepoAnalysis_con_mem env args repo modules branches m v).2
            ⟨hP, hm, hpres, hmig⟩, ?_, ?_⟩
          · intro hnf
            have p := (ocaRepoAnalysis_nf_mem env args repo modules branches m v).1 hnf
            exact bool_clash hpres p.2.2
          · intro hsin
            rw [sinViaOca_def] at hsin
            exact bool_clash hmig hsin.2.2.2
        | false =>
          refine Or.inr (Or.inr ⟨?_, ?_,
            (sinViaOca_def env repo modules branches m v).2 ⟨hP, hm, hpres, hmig⟩⟩)
          · intro hcon
            have p := (ocaRepoAnalysis_con_mem env args repo modules branches m v).1 hcon
            exact bool_clash p.2.2.2 hmig
          · intro hnf
            have p := (ocaRepoAnalysis_nf_mem env args repo modules branches m v).1 hnf
            exact bool_clash hpres p.2.2
      | false =>
        refine Or.inr (Or.inl ⟨?_, (ocaRepoAnalysis_nf_mem env args repo modules
          branches m v).2 ⟨hP, hm, hpres⟩, ?_⟩)
        · intro hcon
          have p := (ocaRepoAnalysis_con_mem env args repo modules branches m v).1 hcon
          exact bool_clash p.2.2.1 hpres
        · intro hsin
          rw [sinViaOca_def] at hsin
          exact bool_clash hsin.2.2.1 hpres
    · intro hf hm
      have hvfalse := failedBranch_spec env (ocaRepoUrl repo) branches v hf
      have hnotP : v ∉ processedBranches env (ocaRepoUrl repo) branches := fun hvP =>
        bool_clash (mem_processedBranches env (ocaRepoUrl repo) branches v hvP) hvfalse
      refine ⟨?_, ?_, ?_, ?_⟩
      · rw [ocaRepoAnalysis_err, hf]
        simp only [namesOf, List.mem_map] at hm
        obtain ⟨e, he, rfl⟩ := hm
        exact List.mem_map.2 ⟨e, he, rfl⟩
      · intro hcon
        exact hnotP ((ocaRepoAnalysis_con_mem env args repo modules branches m v).1 hcon).1
      · intro hnf
        exact hnotP ((ocaRepoAnalysis_nf_mem env args repo modules branches m v).1 hnf).1
      · intro hsin
        rw [sinViaOca_def] at hsin
        exact hnotP hsin.1
  · refine ⟨?_, ?_, ?_, ?_, ?_, ?_⟩
    · rintro ⟨h1, h2⟩
      have p1 := (odooRepoAnalysis_con_mem env args repo modules branches m v).1 h1
      have p2 := (odooRepoAnalysis_nf_mem env args repo modules branches m v).1 h2
      exact bool_clash p1.2.2.1 p2.2.2
    · rintro ⟨h1, h2⟩
      have p1 := (odooRepoAnalysis_con_mem env args repo modules branches m v).1 h1
      rw [sinViaOdoo_def] at h2
      exact bool_clash p1.2.2.2 h2.2.2.2
    · rintro ⟨h1, h2⟩
      have p1 := (odooRepoAnalysis_nf_mem env args repo modules branches m v).1 h1
      rw [sinViaOdoo_def] at h2
      exact bool_clash h2.2.2.1 p1.2.2
    · rintro ⟨he, hcl⟩
      rw [errViaOdoo_def] at he
      have hvfalse := failedBranch_spec env (odooRepoUrl modules) branches v he.1
      have hvP : v ∈ processedBranches env (odooRepoUrl modules) branches := by
        rcases hcl with h | h | h
        · exact ((odooRepoAnalysis_con_mem env args repo modules branches m v).1 h).1
        · exact ((odooRepoAnalysis_nf_mem env args repo modules branches m v).1 h).1
        · rw [sinViaOdoo_def] at h
          exact h.1
      exact bool_clash (mem_processedBranches env (odooRepoUrl modules) branches v hvP)
        hvfalse
    · intro hP hm
      cases hpres : presentOdoo env repo v m with
      | true =>
        cases hmig : migDir env repo v m with
        | true =>
          refine Or.inl ⟨(odooRepoAnalysis_con_mem env args repo modules branches m v).2
            ⟨hP, hm, hpres, hmig⟩, ?_, ?_⟩
          · intro hnf
            have p := (odooRepoAnalysis_nf_mem env args repo modules branches m v).1 hnf
            exact bool_clash hpres p.2.2
          · intro hsin
            rw [sinViaOdoo_def] at hsin
            exact bool_clash hmig hsin.2.2.2
        | false =>
          refine Or.inr (Or.inr ⟨?_, ?_,
            (sinViaOdoo_def env repo modules branches m v).2 ⟨hP, hm, hpres, hmig⟩⟩)
          · intro hcon
            have p := (odooRepoAnalysis_con_mem env args repo modules branches m v).1 hcon
            exact bool_clash p.2.2.2 hmig
          · intro hnf
            have p := (odooRepoAnalysis_nf_mem env args repo modules branches m v).1 hnf
            exact bool_clash hpres p.2.2
      | false =>
        refine Or.inr (Or.inl ⟨?_, (odooRepoAnalysis_nf_mem env args repo modules
          branches m v).2 ⟨hP, hm, hpres⟩, ?_⟩)
        · intro hcon
          have p := (odooRepoAnalysis_con_mem env args repo modules branches m v).1 hcon
          exact bool_clash p.2.2.1 hpres
        · intro hsin
          rw [sinViaOdoo_def] at hsin
          exact bool_clash hsin.2.2.1 hpres
    · intro hf hm
      have hvfalse := failedBranch_spec env (odooRepoUrl modules) branches v hf
      have hnotP : v ∉ processedBranches env (odooRepoUrl modules) branches := fun hvP =>
        bool_clash (mem_processedBranches env (odooRepoUrl modules) branches v hvP) hvfalse
      refine ⟨?_, ?_, ?_, ?_⟩
      · rw [odooRepoAnalysis_err, hf]
        simp only [namesOf, List.mem_map] at hm
        obtain ⟨e, he, rfl⟩ := hm
        exact List.mem_map.2 ⟨e, he, rfl⟩
      · intro hcon
        exact hnotP ((odooRepoAnalysis_con_mem env args repo modules branches m v).1 hcon).1
      · intro hnf
        exact hnotP ((odooRepoAnalysis_nf_mem env args repo modules branches m v).1 hnf).1
      · intro hsin
        rw [sinViaOdoo_def] at hsin
        exact hnotP hsin.1

/-- Witness for C1: at the concrete snapshot `envA`, existence confirmed at
14.0 and module `m1` present with migrations, exactly the `con_migrations`
case of the three-way split holds. -/
theorem c1_classification_exclusive_witness :
    ("14.0" ∈ lookupList (ocaRepoAnalysis envA ⟨14, 17, false, false⟩ "r" [("m1", "u", 1)]
          (mkBranches 14 17)).con_migrations "m1" ∧
        "14.0" ∉ lookupList (ocaRepoAnalysis envA ⟨14, 17, false, false⟩ "r" [("m1", "u", 1)]
          (mkBranches 14 17)).no_encontrados "m1" ∧
        ¬sinViaOca envA "r" [("m1", "u", 1)] (mkBranches 14 17) "m1" "14.0") ∨
      ("14.0" ∉ lookupList (ocaRepoAnalysis envA ⟨14, 17, false, false⟩ "r" [("m1", "u", 1)]
          (mkBranches 14 17)).con_migrations "m1" ∧
        "14.0" ∈ lookupList (ocaRepoAnalysis envA ⟨14, 17, false, false⟩ "r" [("m1", "u", 1)]
          (mkBranches 14 17)).no_encontrados "m1" ∧
        ¬sinViaOca envA "r" [("m1", "u", 1)] (mkBranches 14 17) "m1" "14.0") ∨
      ("14.0" ∉ lookupList (ocaRepoAnalysis envA ⟨14, 17, false, false⟩ "r" [("m1", "u", 1)]
          (mkBranches 14 17)).con_migrations "m1" ∧
        "14.0" ∉ lookupList (ocaRepoAnalysis envA ⟨14, 17, false, false⟩ "r" [("m1", "u", 1)]
          (mkBranches 14 17)).no_encontrados "m1" ∧
        sinViaOca envA "r" [("m1", "u", 1)] (mkBranches 14 17) "m1" "14.0") :=
  (c1_classification_exclusive envA ⟨14, 17, false, false⟩ "r" [("m1", "u", 1)]
    (mkBranches 14 17) "m1" "14.0").1.2.2.2.2.1 (by decide) (by decide)

theorem flatMap_if_singleton (P : List String) (cond : String → Bool) :
    P.flatMap (fun b => if cond b then [b] else []) = P.filter cond := by
  induction P with
  | nil => rfl
  | cons b rest ih =>
    by_cases h : cond b <;> simp [h, ih, List.filter_cons]

theorem flatMap_if_replicate_zero (P : List String) (cond : String → Bool) :
    P.flatMap (fun b => if cond b then List.replicate 0 b else []) = [] := by
  induction P with
  | nil => rfl
  | cons b rest ih =>
    by_cases h : cond b <;> simp [h, ih]

/-- C5 (counterexample): the oca catalogue retaining two rows that both name
module `m` in the same repository makes the walk append the branch once per
row: `con_migrations["m"]` ends as `["14.0", "14.0"]`, so a version does NOT
appear at most once. -/
theorem c5_counterexample :
    lookupList (ocaRepoAnalysis envUp ⟨14, 14, false, false⟩ "r"
        [("m", "u", 1), ("m", "u", 2)] (mkBranches 14 14)).con_migrations "m"
      = ["14.0", "14.0"] ∧
    ¬(lookupList (ocaRepoAnalysis envUp ⟨14, 14, false, false⟩ "r"
        [("m", "u", 1), ("m", "u", 2)] (mkBranches 14 14)).con_migrations "m").Nodup :=
  ⟨rfl, by decide⟩

/-- C5 (amended): `withMigrations[m]` receives one append per catalogue row
naming `m` at each qualifying version (the general equation below); hence
when the repository's rows carry pairwise-distinct module names — and the
branch list is duplicate-free, as every `mkBranches` range is — each version
appears at most once and the list is a subsequence of the version range, in
range order.  With duplicate rows a version is appended once per row. -/
theorem c5_version_uniqueness (env : Env) (args : Args) (repo : String)
    (modules : List ModEntry) (branches : List String) (m : String)
    (hbr : branches.Nodup) (hnames : (namesOf modules).Nodup) :
    lookupList (ocaRepoAnalysis env args repo modules branches).con_migrations m
        = (processedBranches env (ocaRepoUrl repo) branches).flatMap
          (fun b => if conCondOca env repo modules m b then
            List.replicate ((namesOf modules).count m) b
          else []) ∧
      (lookupList (ocaRepoAnalysis env args repo modules branches).con_migrations m).Nodup ∧
      List.Sublist
        (lookupList (ocaRepoAnalysis env args repo modules branches).con_migrations m)
        branches := by
  have hchar : lookupList (ocaRepoAnalysis env args repo modules branches).con_migrations m
      = (processedBranches env (ocaRepoUrl repo) branches).flatMap
        (fun b => if conCondOca env repo modules m b then
          List.replicate ((namesOf modules).count m) b
        else []) := by
    show lookupList (ocaWalkBranches env args repo modules branches
      ({} : OcaState)).analysis.con_migrations m = _
    rw [ocaWalk_con]
    rfl
  refine ⟨hchar, ?_⟩
  by_cases hm : m ∈ namesOf modules
  · rw [hchar, List.count_eq_one_of_mem hnames hm]
    simp only [List.replicate_one]
    rw [flatMap_if_singleton]
    have hsub : List.Sublist
        ((processedBranches env (ocaRepoUrl repo) branches).filter
          (conCondOca env repo modules m))
        branches :=
      (List.filter_sublist _).trans (processedBranches_sublist env (ocaRepoUrl repo) branches)
    exact ⟨hbr.sublist hsub, hsub⟩
  · rw [hchar, List.count_eq_zero_of_not_mem hm, flatMap_if_replicate_zero]
    exact ⟨List.nodup_nil, List.nil_sublist branches⟩

/-- Witness for C5's amended theorem: a single-row catalogue over the
14.0–17.0 range. -/
theorem c5_version_uniqueness_witness :
    lookupList (ocaRepoAnalysis envA ⟨14, 17, false, false⟩ "r" [("m1", "u", 1)]
        (mkBranches 14 17)).con_migrations "m1"
        = (processedBranches envA (ocaRepoUrl "r") (mkBranches 14 17)).flatMap
          (fun b => if conCondOca envA "r" [("m1", "u", 1)] "m1" b then
            List.replicate ((namesOf [("m1", "u", 1)]).count "m1") b
          else []) ∧
      (lookupList (ocaRepoAnalysis envA ⟨14, 17, false, false⟩ "r" [("m1", "u", 1)]
        (mkBranches 14 17)).con_migrations "m1").Nodup ∧
      List.Sublist
        (lookupList (ocaRepoAnalysis envA ⟨14, 17, false, false⟩ "r" [("m1", "u", 1)]
          (mkBranches 14 17)).con_migrations "m1")
        (mkBranches 14 17) :=
  c5_version_uniqueness envA ⟨14, 17, false, false⟩ "r" [("m1", "u", 1)]
    (mkBranches 14 17) "m1" (by decide) (by decide)

/-- C6 (code bug, odoo variant): module `m` lives only under the secondary
search root `addons/` and its migrations directory exists right there
(`addons/m/migrations`), so it is discovered as present — yet the walk's
migrations probe always inspects the top-level path `m/migrations`, which
does not exist, and the module is classified without-migrations instead of
with-migrations (and is absent from `no_encontrados`). -/
theorem c6_nested_module_misses_migrations :
    presentOdoo envNested "r" "14.0" "m" = true ∧
      envNested.isDir "r" "14.0" ["addons", "m", "migrations"] = true ∧
      migDir envNested "r" "14.0" "m" = false ∧
      lookupList (odooRepoAnalysis envNested ⟨14, 14, false, false⟩ "r" [("m", "u", 1)]
        (mkBranches 14 14)).con_migrations "m" = [] ∧
      "m" ∈ (odooRepoAnalysis envNested ⟨14, 14, false, false⟩ "r" [("m", "u", 1)]
        (mkBranches 14 14)).sin_migrations ∧
      lookupList (odooRepoAnalysis envNested ⟨14, 14, false, false⟩ "r" [("m", "u", 1)]
        (mkBranches 14 14)).no_encontrados "m" = [] :=
  ⟨rfl, rfl, rfl, rfl, by decide, rfl⟩

/-- C4 (code bug): with `--dry-run` AND `--save-migrations` both set, and a
module present with migrations in the already-existing local snapshot, both
variants DO invoke `save_migrations` — whose source-directory check succeeds,
so the `shutil.copytree` mutation runs — because the call at the
`con_migrations` site is guarded only by `args.save_migrations`, never by
`args.dry_run`; classification proceeds as usual. -/
theorem c4_capture_ignores_dry_run :
    (Args.mk 14 14 true true).dry_run = true ∧
      (Args.mk 14 14 true true).save_migrations = true ∧
      (analyze_repos_oca envUp ⟨14, 14, true, true⟩ [("r", [("m", "u", 1)])]).captures
        = [("r", "14.0", "m")] ∧
      (analyze_repos_odoo envUp ⟨14, 14, true, true⟩ [("r", [("m", "u", 1)])] []).captures
        = [("r", "14.0", "m")] ∧
      save_migrations_copies envUp "r" "14.0" "m" = true ∧
      lookupList (ocaRepoAnalysis envUp ⟨14, 14, true, true⟩ "r" [("m", "u", 1)]
        (mkBranches 14 14)).con_migrations "m" = ["14.0"] :=
  ⟨rfl, rfl, rfl, rfl, rfl, rfl⟩

/-- C9 (counterexample): in the odoo variant a repository-unavailable event
during the walk appends to the catalogue parse-error list: starting from an
empty `csv_errors`, the walk leaves `[(1, ["m", "u"])]` there. -/
theorem c9_counterexample :
    (analyze_repos_odoo envDown ⟨14, 16, false, false⟩
        [("r", [("m", "u", 1)])] []).csv_errors = [(1, ["m", "u"])] ∧
      (analyze_repos_odoo envDown ⟨14, 16, false, false⟩
        [("r", [("m", "u", 1)])] []).csv_errors ≠ [] :=
  ⟨rfl, by decide⟩

theorem odooReposLoop_csv (env : Env) (args : Args) (branches : List String) :
    ∀ (rd : List (String × List ModEntry)) (st : OdooState),
      (odooReposLoop env args branches rd st).2.csv_errors
        = st.csv_errors ++ rd.flatMap (fun p =>
            match failedBranch env (odooRepoUrl p.2) branches with
            | some _ => p.2.map (fun e => (e.2.2, [e.1, odooRepoUrl p.2]))
            | none => []) := by
  intro rd
  induction rd with
  | nil => intro st; simp [odooReposLoop]
  | cons p rest ih =>
    intro st
    obtain ⟨repo, modules⟩ := p
    show (odooReposLoop env args branches rest
        (odooWalkBranches env args repo modules branches { st with analysis := {} })).2.csv_errors = _
    rw [ih, odooWalk_csv]
    show st.csv_errors ++ _ ++ _ = _
    rw [List.flatMap_cons, List.append_assoc]

/-- C9 (amended): the error table's list is exactly the Catalogue Parser's
failures plus — in the odoo variant — one `(line, [module, repo_url])` record
per module entry of every repository whose existence probe failed during the
walk (line 186 appends them to the shared list).  The oca variant's
`analyze_repos` never receives the parse-error list at all, so there the
original claim holds. -/
theorem c9_csv_error_sources (env : Env) (args : Args)
    (rd : List (String × List ModEntry)) (ce : List (Nat × List String)) :
    (analyze_repos_odoo env args rd ce).csv_errors
      = ce ++ rd.flatMap (fun p =>
          match failedBranch env (odooRepoUrl p.2) (mkBranches args.start_v args.end_v) with
          | some _ => p.2.map (fun e => (e.2.2, [e.1, odooRepoUrl p.2]))
          | none => []) := by
  simp only [analyze_repos_odoo]
  exact odooReposLoop_csv env args (mkBranches args.start_v args.end_v) rd
    { csv_errors := ce }

theorem RelData_appendAt (k : String) (e₁ e₂ : ModEntry) (he : RelEntry e₁ e₂) :
    ∀ d₁ d₂ : List (String × List ModEntry), RelData d₁ d₂ →
      RelData (appendAt d₁ k e₁) (appendAt d₂ k e₂) := by
  intro d₁ d₂ hd
  induction hd with
  | nil =>
    exact List.Forall₂.cons ⟨rfl, List.Forall₂.cons he List.Forall₂.nil⟩ List.Forall₂.nil
  | cons hpq htail ih =>
    rename_i p q rest₁ rest₂
    obtain ⟨k₁, vs₁⟩ := p
    obtain ⟨k₂, vs₂⟩ := q
    obtain ⟨hk, hvs⟩ := hpq
    simp only at hk
    subst hk
    by_cases hkey : k₁ = k
    · simp only [appendAt, hkey, if_pos]
      exact List.Forall₂.cons
        ⟨rfl, List.rel_append hvs (List.Forall₂.cons he List.Forall₂.nil)⟩ htail
    · simp only [appendAt, hkey, if_neg, if_false]
      exact List.Forall₂.cons ⟨rfl, hvs⟩ ih

set_option maxHeartbeats 1600000 in
theorem parse_csv_go_cons (row : List String) (rest : List (List String)) (n : Nat)
    (d : List (String × List ModEntry)) (ce : List (Nat × List String)) :
    parse_csv_go (row :: rest) n d ce
      = if row.length < 2 then parse_csv_go rest (n + 1) d (ce ++ [(n, row)])
        else
          match extract_repo_name (pyStrip (row.getD 1 "")) with
          | none => parse_csv_go rest (n + 1) d (ce ++ [(n, row)])
          | some repo =>
            if repo = "" then parse_csv_go rest (n + 1) d (ce ++ [(n, row)])
            else parse_csv_go rest (n + 1)
              (appendAt d repo (pyStrip (row.getD 0 ""), pyStrip (row.getD 1 ""), n)) ce :=
  rfl

theorem parse_csv_go_rel :
    ∀ (rows₁ rows₂ : List (List String)), List.Forall₂ RelRow rows₁ rows₂ →
      ∀ (n : Nat) (d₁ d₂ : List (String × List ModEntry))
        (ce₁ ce₂ : List (Nat × List String)), RelData d₁ d₂ →
        RelData (parse_csv_go rows₁ n d₁ ce₁).1 (parse_csv_go rows₂ n d₂ ce₂).1 := by
  intro rows₁ rows₂ hrel
  induction hrel with
  | nil => intro n d₁ d₂ ce₁ ce₂ hd; exact hd
  | cons hrow htail ih =>
    rename_i row₁ row₂ rest₁ rest₂
    intro n d₁ d₂ ce₁ ce₂ hd
    rw [parse_csv_go_cons, parse_csv_go_cons]
    rcases hrow with ⟨hl₁, hl₂⟩ | ⟨m, u₁, u₂, t₁, t₂, rfl, rfl, hext⟩
    · rw [if_pos hl₁, if_pos hl₂]
      exact ih _ _ _ _ _ hd
    · have hlen₁ : ¬(m :: u₁ :: t₁).length < 2 := by simp
      have hlen₂ : ¬(m :: u₂ :: t₂).length < 2 := by simp
      rw [if_neg hlen₁, if_neg hlen₂,
        show (m :: u₁ :: t₁).getD 1 "" = u₁ from rfl,
        show (m :: u₂ :: t₂).getD 1 "" = u₂ from rfl, hext]
      cases hcase : extract_repo_name (pyStrip u₂) with
      | none => exact ih _ _ _ _ _ hd
      | some repo =>
        by_cases hrep : repo = ""
        · simp only [hrep, if_pos rfl]
          exact ih _ _ _ _ _ hd
        · simp only [if_neg hrep]
          exact ih _ _ _ _ _
            (RelData_appendAt repo (pyStrip ((m :: u₁ :: t₁).getD 0 ""), pyStrip u₁, n)
              (pyStrip ((m :: u₂ :: t₂).getD 0 ""), pyStrip u₂, n) ⟨rfl, rfl⟩ d₁ d₂ hd)

theorem namesOf_rel (ms₁ ms₂ : List ModEntry) (h : List.Forall₂ RelEntry ms₁ ms₂) :
    namesOf ms₁ = namesOf ms₂ := by
  induction h with
  | nil => rfl
  | cons hpq htail ih =>
    simp only [namesOf, List.map_cons] at ih ⊢
    rw [hpq.1, ih]

theorem ocaProcessModule_rel (env : Env) (sv : Bool) (repo b : String)
    (ne : List String) (st : OcaState) (e₁ e₂ : ModEntry) (he : RelEntry e₁ e₂) :
    ocaProcessModule env sv repo b ne st e₁ = ocaProcessModule env sv repo b ne st e₂ := by
  obtain ⟨m₁, u₁, l₁⟩ := e₁
  obtain ⟨m₂, u₂, l₂⟩ := e₂
  obtain ⟨hm, hl⟩ := he
  simp only at hm hl
  subst hm
  subst hl
  rfl

theorem ocaLoop_rel (env : Env) (sv : Bool) (repo b : String) (ne : List String) :
    ∀ (ms₁ ms₂ : List ModEntry), List.Forall₂ RelEntry ms₁ ms₂ →
      ∀ st : OcaState,
        ms₁.foldl (ocaProcessModule env sv repo b ne) st
          = ms₂.foldl (ocaProcessModule env sv repo b ne) st := by
  intro ms₁ ms₂ h
  induction h with
  | nil => intro st; rfl
  | cons he htail ih =>
    intro st
    rw [List.foldl_cons, List.foldl_cons, ocaProcessModule_rel env sv repo b ne st _ _ he]
    exact ih _

theorem log_repo_modules_oca_rel (env : Env) (repo b : String)
    (ms₁ ms₂ : List ModEntry) (h : List.Forall₂ RelEntry ms₁ ms₂) :
    log_repo_modules_oca env repo b ms₁ = log_repo_modules_oca env repo b ms₂ := by
  unfold log_repo_modules_oca split_modules
  rw [show ms₁.map (fun e => e.1) = namesOf ms₁ from rfl,
    show ms₂.map (fun e => e.1) = namesOf ms₂ from rfl, namesOf_rel ms₁ ms₂ h]

theorem ocaErrorBlock_rel (repo b : String) :
    ∀ (ms₁ ms₂ : List ModEntry), List.Forall₂ RelEntry ms₁ ms₂ →
      ∀ st : OcaState, ocaErrorBlock repo b ms₁ st = ocaErrorBlock repo b ms₂ st := by
  unfold ocaErrorBlock
  intro ms₁ ms₂ h
  induction h with
  | nil => intro st; rfl
  | cons he htail ih =>
    rename_i e₁ e₂ rest₁ rest₂
    intro st
    obtain ⟨m₁, u₁, l₁⟩ := e₁
    obtain ⟨m₂, u₂, l₂⟩ := e₂
    obtain ⟨hm, hl⟩ := he
    simp only at hm hl
    subst hm
    subst hl
    rw [List.foldl_cons, List.foldl_cons]
    exact ih _

theorem ocaWalk_rel (env : Env) (args : Args) (repo : String)
    (ms₁ ms₂ : List ModEntry) (h : List.Forall₂ RelEntry ms₁ ms₂) :
    ∀ (bs : List String) (st : OcaState),
      ocaWalkBranches env args repo ms₁ bs st = ocaWalkBranches env args repo ms₂ bs st := by
  intro bs
  induction bs with
  | nil => intro st; rfl
  | cons b rest ih =>
    intro st
    by_cases hp : env.repoExists (ocaRepoUrl repo) b
    · simp only [ocaWalkBranches, hp, Bool.not_true, Bool.false_eq_true, if_false]
      rw [show ocaProcessBranch env args repo ms₁ b st
          = ms₁.foldl (ocaProcessModule env args.save_migrations repo b
            (log_repo_modules_oca env repo b ms₁).2) st from rfl,
        show ocaProcessBranch env args repo ms₂ b st
          = ms₂.foldl (ocaProcessModule env args.save_migrations repo b
            (log_repo_modules_oca env repo b ms₂).2) st from rfl,
        log_repo_modules_oca_rel env repo b ms₁ ms₂ h,
        ocaLoop_rel env args.save_migrations repo b _ ms₁ ms₂ h st]
      exact ih _
    · simp only [ocaWalkBranches, Bool.not_eq_true] at hp ⊢
      rw [hp]
      simp only [Bool.not_false, if_true]
      exact ocaErrorBlock_rel repo b ms₁ ms₂ h st

theorem ocaReposLoop_rel (env : Env) (args : Args) (branches : List String) :
    ∀ (rd₁ rd₂ : List (String × List ModEntry)), RelData rd₁ rd₂ →
      ∀ st : OcaState,
        ocaReposLoop env args branches rd₁ st = ocaReposLoop env args branches rd₂ st := by
  intro rd₁ rd₂ h
  induction h with
  | nil => intro st; rfl
  | cons hpq htail ih =>
    rename_i p q rest₁ rest₂
    intro st
    obtain ⟨repo₁, ms₁⟩ := p
    obtain ⟨repo₂, ms₂⟩ := q
    obtain ⟨hk, hms⟩ := hpq
    simp only at hk
    subst hk
    simp only [ocaReposLoop]
    rw [ocaWalk_rel env args repo₁ ms₁ ms₂ hms branches, ih]

/-- C10 (confirmed): URL-host noninterference of the oca variant.  Two
catalogues whose rows differ only in the repository-URL field while yielding
identical extracted repository identifiers produce identical
`analyze_repos` results — resumen, global migration map, all report rows and
all capture events — against every snapshot state; the walk reads nothing
from the stored URL (it probes and clones the fixed
`https://github.com/OCA/<id>.git` location). -/
theorem c10_url_noninterference (env : Env) (args : Args)
    (rows₁ rows₂ : List (List String)) (hrel : List.Forall₂ RelRow rows₁ rows₂) :
    analyze_repos_oca env args (parse_csv rows₁).1
      = analyze_repos_oca env args (parse_csv rows₂).1 := by
  have hdata : RelData (parse_csv rows₁).1 (parse_csv rows₂).1 :=
    parse_csv_go_rel rows₁ rows₂ hrel 1 [] [] [] [] List.Forall₂.nil
  simp only [analyze_repos_oca]
  rw [ocaReposLoop_rel env args (mkBranches args.start_v args.end_v) _ _ hdata]

/-- Witness for C10: a GitHub and a non-GitHub URL with the same extracted
identifier yield identical analyses. -/
theorem c10_url_noninterference_witness :
    analyze_repos_oca envUp ⟨14, 14, true, false⟩
        (parse_csv [["m", "https://github.com/OCA/r1"]]).1
      = analyze_repos_oca envUp ⟨14, 14, true, false⟩
        (parse_csv [["m", "https://gitlab.example/OCA/r1?ref=main"]]).1 :=
  c10_url_noninterference envUp ⟨14, 14, true, false⟩
    [["m", "https://github.com/OCA/r1"]] [["m", "https://gitlab.example/OCA/r1?ref=main"]]
    (List.Forall₂.cons
      (Or.inr ⟨"m", "https://github.com/OCA/r1", "https://gitlab.example/OCA/r1?ref=main",
        [], [], rfl, rfl, by decide⟩)
      List.Forall₂.nil)
